import Mathlib

/-!
Verification of the analytics aggregation and streak-computation engine of
`backend/app/services/analytics_service.py` (a journaling/habit-tracking
backend).  The Python functions are shallowly embedded as executable Lean
definitions:

* Python dict-shaped `Answer`/`Response` records become structures whose
  possibly-missing keys are `Option`-valued (`a.get(k)` returning `None`
  corresponds to `none`);
* `YYYY-MM-DD` date strings are represented by their parsed `(year, month,
  day)` triple (`Date` below); a valid zero-padded string and its triple
  are in bijection, string lexicographic order coincides with the
  lexicographic order on the triple, and `datetime.date` arithmetic is
  Rata-Die ordinal arithmetic (`Date.toOrd`);
* `datetime.strptime` validation failures (ValueError) and `KeyError` on a
  missing `"date"` key are modelled by returning `none` from the embedded
  function;
* Python `Counter` / insertion-ordered dicts become association lists where
  an update increments in place and a fresh key is appended at the end;
  `Counter.most_common(n)` / `sorted(...)` become the stable
  `List.insertionSort`;
* float arithmetic is modelled exactly over `ℚ`;
* the processing instant `datetime.now()` is an explicit parameter: a
  calendar date `today` where only the date matters, or a rational
  timestamp `now` (in days since the civil epoch) where the code compares
  full datetimes.
-/

/-- Python `str(x)` applied to a value that is either a string or `None`
(`str(answer.get("question_id"))` in the source). -/
def pyStr : Option String → String
  | none => "None"
  | some s => s

/-- Python truthiness of an optional string (`if option_id:` in the source):
`None` and the empty string are falsy. -/
def truthy : Option String → Bool
  | none => false
  | some s => !(s == "")

/-- A parsed `YYYY-MM-DD` calendar date. -/
structure Date where
  year : Nat
  month : Nat
  day : Nat
deriving DecidableEq, Repr

/-- Number of days in a month of the proleptic Gregorian calendar. -/
def daysInMonth (y m : Nat) : Nat :=
  if m = 2 then
    if y % 4 = 0 && (y % 100 != 0 || y % 400 = 0) then 29 else 28
  else if m = 4 || m = 6 || m = 9 || m = 11 then 30
  else 31

/-- The date triples accepted by `datetime.strptime(_, "%Y-%m-%d")`:
four-digit year, real month, real day of month. -/
def Date.valid (d : Date) : Bool :=
  1000 ≤ d.year && d.year ≤ 9999 && 1 ≤ d.month && d.month ≤ 12 &&
    1 ≤ d.day && d.day ≤ daysInMonth d.year d.month

/-- Rata-Die style day count (days since 1970-01-01) of a civil date,
the standard `days_from_civil` algorithm.  This is the denotation of a
`datetime.date`: date subtraction is subtraction of ordinals. -/
def Date.toOrd (dt : Date) : Int :=
  let y : Nat := if dt.month ≤ 2 then dt.year - 1 else dt.year
  let era : Nat := y / 400
  let yoe : Nat := y - era * 400
  let mp : Nat := if 2 < dt.month then dt.month - 3 else dt.month + 9
  let doy : Nat := (153 * mp + 2) / 5 + dt.day - 1
  let doe : Nat := yoe * 365 + yoe / 4 - yoe / 100 + doy
  (era * 146097 + doe : Int) - 719468

/-- Inverse of `Date.toOrd` (`civil_from_days`); used where the source
formats `(now - timedelta(days=i)).date()` back into a date string.
Only meaningful for ordinals of dates with a positive year. -/
def dateOfOrd (z : Int) : Date :=
  let z' : Nat := (z + 719468).toNat
  let era : Nat := z' / 146097
  let doe : Nat := z' - era * 146097
  let yoe : Nat := (doe - doe / 1460 + doe / 36524 - doe / 146096) / 365
  let y : Nat := yoe + era * 400
  let doy : Nat := doe - (365 * yoe + yoe / 4 - yoe / 100)
  let mp : Nat := (5 * doy + 2) / 153
  let d : Nat := doy - (153 * mp + 2) / 5 + 1
  let m : Nat := if mp < 10 then mp + 3 else mp - 9
  ⟨if mp < 10 then y else y + 1, m, d⟩

/-- Sort key mirroring lexicographic order on the zero-padded
`YYYY-MM-DD` string (for `sorted(...)` over date strings). -/
def Date.key (d : Date) : Nat :=
  d.year * 10000 + d.month * 100 + d.day

/-- The Python `date.weekday()` value (Monday = 0) of an ordinal:
1970-01-01 was a Thursday. -/
def weekdayOfOrd (o : Int) : Int := (o + 3) % 7

/-- Embeds `date_obj - timedelta(days=date_obj.weekday())`: the Monday beginning
the week that contains ordinal `o`. -/
def weekStart (o : Int) : Int := o - weekdayOfOrd o

/-- One answer record: the engine reads keys `question_id`,
`sub_question_id` and `selected_option_id` through `.get`, so each is
optional. -/
structure Answer where
  question_id : Option String
  sub_question_id : Option String
  selected_option_id : Option String
deriving DecidableEq, Repr

/-- One response record: the `date` key may be absent (`r.get("date")`),
and `r["date"]` on such a record raises. -/
structure Response where
  date : Option Date
  answers : List Answer
deriving DecidableEq, Repr

/-- The entry stored in the options map for one option id: a string-valued
dict (in the source: `{"option_text": ..., "option_value": ...}`). -/
abbrev OptionEntry := List (String × String)

/-- The preloaded `option_id -> {option_text, option_value}` lookup table. -/
abbrev OptionsMap := List (String × OptionEntry)

/-- First-match association-list lookup: Python `d.get(k)`. -/
def alGet {κ α : Type} [DecidableEq κ] (d : List (κ × α)) (k : κ) : Option α :=
  (d.find? (fun p => p.1 = k)).map (·.2)

/-- Embeds `get_option_text_from_id`: resolve an option id to display text via the
options map; a missing id (or a falsy/empty entry, or an entry without an
`option_text` field) degrades to the id itself. -/
def get_option_text_from_id (option_id : String) (options_map : OptionsMap) :
    String :=
  match alGet options_map option_id with
  | none => option_id
  | some entry =>
      if entry.isEmpty then option_id
      else (alGet entry "option_text").getD option_id

/-- Python `Counter`/insertion-ordered dict update `c[k] += 1`: increment an
existing key in place, append a fresh key (with count 1) at the end. -/
def bump {κ : Type} [DecidableEq κ] (c : List (κ × Nat)) (k : κ) :
    List (κ × Nat) :=
  if c.any (fun p => p.1 = k) then
    c.map (fun p => if p.1 = k then (p.1, p.2 + 1) else p)
  else c ++ [(k, 1)]

/-- Descending-count order used for `Counter.most_common`:
`sorted(items, key=count, reverse=True)` puts `a` before `b` iff
`b.count ≤ a.count`; the sort is stable so insertion order breaks ties. -/
def cntGe (a b : String × Nat) : Prop := b.2 ≤ a.2

instance : DecidableRel cntGe := fun a b => inferInstanceAs (Decidable (b.2 ≤ a.2))

instance : IsTotal (String × Nat) cntGe := ⟨fun a b => le_total b.2 a.2⟩

instance : IsTrans (String × Nat) cntGe :=
  ⟨fun _ _ _ h1 h2 => le_trans h2 h1⟩

/-- Embeds `Counter.most_common(n)`: the first `n` items of the stable descending
sort by count. -/
def mostCommon (c : List (String × Nat)) (n : Nat) : List (String × Nat) :=
  (List.insertionSort cntGe c).take n

/-- Result shape of `calculate_option_frequency`. -/
structure FrequencyTable where
  absolute_counts : List (String × Nat)
  percentages : List (String × ℚ)
  top_options : List (String × Nat)
  total_selections : Nat
deriving DecidableEq, Repr

/-- The per-answer filter of `calculate_option_frequency`: an answer is
counted when it passes the optional question/sub-question filters and has a
truthy `selected_option_id`. -/
def freqAnswerOk (question_id sub_question_id : Option String) (a : Answer) :
    Bool :=
  !(truthy question_id && !(pyStr a.question_id == pyStr question_id)) &&
  !(truthy sub_question_id && !(pyStr a.sub_question_id == pyStr sub_question_id)) &&
  !(truthy sub_question_id && !(truthy a.sub_question_id)) &&
  !(truthy question_id && !(truthy sub_question_id) && truthy a.sub_question_id) &&
  truthy a.selected_option_id

/-- Embeds `calculate_option_frequency`: count option selections (resolved to
display text), optionally filtered by question and/or sub-question id. -/
def calculate_option_frequency (responses : List Response)
    (question_id sub_question_id : Option String) (options_map : OptionsMap) :
    FrequencyTable :=
  if responses.isEmpty then ⟨[], [], [], 0⟩
  else
    let st : List (String × Nat) × Nat :=
      responses.foldl (fun st r =>
        r.answers.foldl (fun st a =>
          if freqAnswerOk question_id sub_question_id a then
            (bump st.1 (get_option_text_from_id (pyStr a.selected_option_id)
              options_map), st.2 + 1)
          else st) st) ([], 0)
    let counter := st.1
    let total := st.2
    let percentages := counter.map (fun p =>
      (p.1, if 0 < total then (p.2 : ℚ) / total * 100 else 0))
    ⟨counter, percentages, mostCommon counter 10, total⟩

/-- One point of the daily trend series (`{"date": ..., "count": ...}`). -/
structure DailyPoint where
  date : Date
  count : Nat
deriving DecidableEq, Repr

/-- The Monday-anchored week bucket a daily point belongs to
(`week_start = date_obj - timedelta(days=date_obj.weekday())`). -/
def weekOf (p : DailyPoint) : Int := weekStart p.date.toOrd

/-- One point of the weekly trend series; `date` is the ordinal of the
Monday starting the week (the source formats it back to a string). -/
structure WeeklyPoint where
  date : Int
  count : Nat
  avg_per_day : ℚ
deriving DecidableEq, Repr

/-- Result shape of `calculate_option_trends`. -/
structure TrendResult where
  daily : List DailyPoint
  weekly : List WeeklyPoint
deriving DecidableEq, Repr

/-- Ascending order on daily points, mirroring `sorted(daily_data.items())`
over date-string keys. -/
def dateKeyLe (a b : Date × Nat) : Prop := a.1.key ≤ b.1.key

instance : DecidableRel dateKeyLe :=
  fun a b => inferInstanceAs (Decidable (a.1.key ≤ b.1.key))

instance : IsTotal (Date × Nat) dateKeyLe := ⟨fun a b => le_total a.1.key b.1.key⟩

instance : IsTrans (Date × Nat) dateKeyLe := ⟨fun _ _ _ => le_trans⟩

/-- Ascending order on the accumulated weekly buckets, mirroring
`sorted(weekly_data.items())` over week-start date-string keys. -/
def weekKeyLe (a b : Int × Nat × Nat) : Prop := a.1 ≤ b.1

instance : DecidableRel weekKeyLe :=
  fun a b => inferInstanceAs (Decidable (a.1 ≤ b.1))

instance : IsTotal (Int × Nat × Nat) weekKeyLe := ⟨fun a b => le_total a.1 b.1⟩

instance : IsTrans (Int × Nat × Nat) weekKeyLe := ⟨fun _ _ _ => le_trans⟩

/-- The weekly-bucket update of `calculate_option_trends`: create the
bucket `{count: 0, days: 0}` if absent, then add the day's count and one
day. -/
def weekBump (w : List (Int × Nat × Nat)) (k : Int) (c : Nat) :
    List (Int × Nat × Nat) :=
  if w.any (fun p => p.1 = k) then
    w.map (fun p => if p.1 = k then (p.1, p.2.1 + c, p.2.2 + 1) else p)
  else w ++ [(k, c, 1)]

/-- The per-answer filter of `calculate_option_trends`: the answer must
pass the optional question filter, have a truthy selected option, and its
resolved text must equal the trended `option_text`. -/
def trendAnswerOk (option_text : String) (question_id : Option String)
    (options_map : OptionsMap) (a : Answer) : Bool :=
  !(truthy question_id && !(pyStr a.question_id == pyStr question_id)) &&
  truthy a.selected_option_id &&
  get_option_text_from_id (pyStr a.selected_option_id) options_map == option_text

/-- Embeds `calculate_option_trends`: per-date counts of the selections of one option,
sorted by date, plus a weekly rollup over Monday-anchored weeks.  Returns
`none` when a date string in the daily series fails `strptime`
(ValueError in the source). -/
def calculate_option_trends (responses : List Response) (option_text : String)
    (question_id : Option String) (options_map : OptionsMap) :
    Option TrendResult :=
  if responses.isEmpty then some ⟨[], []⟩
  else
    let daily_data : List (Date × Nat) :=
      responses.foldl (fun acc r =>
        match r.date with
        | none => acc
        | some d =>
            r.answers.foldl (fun acc a =>
              if trendAnswerOk option_text question_id options_map a then
                bump acc d
              else acc) acc) []
    let daily_trend : List DailyPoint :=
      (List.insertionSort dateKeyLe daily_data).map (fun p => ⟨p.1, p.2⟩)
    if daily_trend.all (fun p => p.date.valid) then
      let weekly_data : List (Int × Nat × Nat) :=
        daily_trend.foldl (fun acc p => weekBump acc (weekOf p) p.count) []
      let weekly_trend : List WeeklyPoint :=
        (List.insertionSort weekKeyLe weekly_data).map (fun p =>
          ⟨p.1, p.2.1, if 0 < p.2.2 then (p.2.1 : ℚ) / p.2.2 else 0⟩)
      some ⟨daily_trend, weekly_trend⟩
    else none

/-- Result shape of `calculate_daily_progress`. -/
structure DailyProgress where
  days_this_month : Nat
  current_streak : Nat
  longest_streak : Nat
  total_days : Nat
deriving DecidableEq, Repr

/-- The longest-streak scan of `calculate_daily_progress`: walk the sorted
unique dates, extending the running streak when adjacent dates differ by
exactly one day and resetting to 1 otherwise, tracking the maximum. -/
def longestStreakAux (prev : Int) (streak longest : Nat) :
    List Int → Nat
  | [] => longest
  | d :: rest =>
      if d - prev = 1 then
        longestStreakAux d (streak + 1) (max longest (streak + 1)) rest
      else longestStreakAux d 1 longest rest

/-- Longest streak over a sorted list of date ordinals (0 for no dates,
1-based otherwise, as in the source). -/
def longestStreak : List Int → Nat
  | [] => 0
  | d :: rest => longestStreakAux d 1 1 rest

/-- The backward walk of the current-streak computation: starting from the
most recent date, count consecutive present dates.  The `while` loop is
given `s.length` steps of fuel, which is exact for the duplicate-free list
the source walks (a run of members of length `s.length` exhausts `s`, and
the value one below its minimum cannot be a member). -/
def backWalk (s : List Int) : Nat → Int → Nat
  | 0, _ => 0
  | fuel + 1, check =>
      if check ∈ s then backWalk s fuel (check - 1) + 1 else 0

/-- Embeds `calculate_daily_progress`: streak and completion metrics over the set
of unique submission dates; `today` is `datetime.now().date()`.  Returns
`none` when a response lacks its `date` key (KeyError) or a date string
fails `strptime` (ValueError). -/
def calculate_daily_progress (responses : List Response) (today : Date) :
    Option DailyProgress :=
  if responses.isEmpty then some ⟨0, 0, 0, 0⟩
  else
    match responses.mapM Response.date with
    | none => none
    | some rawDates =>
        if rawDates.all Date.valid then
          let uniqueDates : List Date := rawDates.dedup
          let days_this_month : Nat :=
            (uniqueDates.filter (fun d =>
              d.year = today.year ∧ d.month = today.month)).length
          let ords : List Int :=
            List.insertionSort (· ≤ ·) (rawDates.map Date.toOrd).dedup
          let longest : Nat := longestStreak ords
          let current : Nat :=
            match ords.max? with
            | none => 0
            | some m =>
                if today.toOrd - m ≤ 1 then backWalk ords ords.length m
                else 0
          some ⟨days_this_month, current, longest, uniqueDates.length⟩
        else none

/-- Result shape of `calculate_mood_score`. -/
structure MoodScore where
  overall_score : Nat
  trend : String
  positive_count : Nat
  negative_count : Nat
  distribution : List (String × Nat)
deriving DecidableEq, Repr

/-- The fixed feeling-label lexicon of `calculate_mood_score`
(unrecognized labels default to 50). -/
def feelingScore (t : String) : Nat :=
  if t = "Excited" then 100
  else if t = "Happy" then 90
  else if t = "Contented" then 75
  else if t = "Normal" then 50
  else if t = "Low energy" then 30
  else if t = "Depressed" then 10
  else if t = "Agitated/Stressed" then 20
  else 50

/-- The positive feeling labels. -/
def positiveOptions : List String := ["Excited", "Happy", "Contented"]

/-- The negative feeling labels. -/
def negativeOptions : List String := ["Depressed", "Agitated/Stressed", "Low energy"]

/-- Accumulator of the mood scan: positive count, negative count, total
score, number of counted answers, and the distribution counter. -/
structure MoodState where
  pos : Nat
  neg : Nat
  total : Nat
  cnt : Nat
  dist : List (String × Nat)
deriving DecidableEq, Repr

/-- One counted answer of the mood scan: resolve the option text, add it
to the distribution, add its lexicon score, and classify it. -/
def moodStep (st : MoodState) (t : String) : MoodState :=
  ⟨st.pos + (if t ∈ positiveOptions then 1 else 0),
   st.neg + (if t ∈ negativeOptions then 1 else 0),
   st.total + feelingScore t, st.cnt + 1, bump st.dist t⟩

/-- The trend thresholds applied to a 0-100 score. -/
def trendOf (score : Nat) : String :=
  if 70 ≤ score then "very_positive"
  else if 55 ≤ score then "positive"
  else if 45 ≤ score then "neutral"
  else "negative"

/-- Embeds `calculate_mood_score`: average the feeling-lexicon scores of the
answers to the mood question (integer-truncated), count positive/negative
labels, and classify the score into a trend. -/
def calculate_mood_score (responses : List Response) (question_id : String)
    (options_map : OptionsMap) : MoodScore :=
  if responses.isEmpty then ⟨50, "neutral", 0, 0, []⟩
  else
    let st : MoodState :=
      responses.foldl (fun st r =>
        r.answers.foldl (fun st a =>
          if pyStr a.question_id = question_id ∧ truthy a.selected_option_id then
            moodStep st (get_option_text_from_id (pyStr a.selected_option_id)
              options_map)
          else st) st) ⟨0, 0, 0, 0, []⟩
    let overall : Nat := if st.cnt = 0 then 50 else st.total / st.cnt
    ⟨overall, trendOf overall, st.pos, st.neg, st.dist⟩

/-- Result shape of `calculate_weekly_summary`. -/
structure WeeklySummary where
  days_completed : Nat
  top_selections : List String
  weekly_trend : String
  mood_score : Nat
deriving DecidableEq, Repr

/-- The trailing-window filter of `calculate_weekly_summary`:
`datetime.strptime(r["date"]) >= now - timedelta(days=7)`, where a parsed
date string denotes midnight of that day and `now` is a rational timestamp
in days since the civil epoch. -/
def inTrailingWeek (now : ℚ) (d : Date) : Bool :=
  now - 7 ≤ (d.toOrd : ℚ)

/-- The restriction of a response collection to the trailing 7 days. -/
def weeklyWindow (responses : List Response) (now : ℚ) : List Response :=
  responses.filter (fun r =>
    match r.date with
    | none => false
    | some d => inTrailingWeek now d)

/-- Embeds `calculate_weekly_summary`: restrict to responses of the trailing 7
days, count them, list the five most frequent selections across all
questions, and attach the mood score of the window.  Returns `none` when a
response lacks its `date` key (KeyError) or has an invalid date
(`strptime` ValueError), since the window filter parses every date. -/
def calculate_weekly_summary (responses : List Response) (question_id : String)
    (options_map : OptionsMap) (now : ℚ) : Option WeeklySummary :=
  match responses.mapM Response.date with
  | none => none
  | some ds =>
      if ds.all Date.valid then
        let weekly_responses : List Response := weeklyWindow responses now
        if weekly_responses.isEmpty then some ⟨0, [], "neutral", 50⟩
        else
          let selections : List (String × Nat) :=
            weekly_responses.foldl (fun acc r =>
              r.answers.foldl (fun acc a =>
                if truthy a.selected_option_id then
                  bump acc (get_option_text_from_id (pyStr a.selected_option_id)
                    options_map)
                else acc) acc) []
          let top_selections : List String :=
            (mostCommon selections 5).map (·.1)
          let mood := calculate_mood_score weekly_responses question_id options_map
          some ⟨weekly_responses.length, top_selections, mood.trend,
            mood.overall_score⟩
      else none

/-- Helper for the Python substring test: leading-match of character lists. -/
def charsHaveLead : List Char → List Char → Bool
  | [], _ => true
  | _ :: _, [] => false
  | a :: as, b :: bs => a == b && charsHaveLead as bs

/-- Containment of `pat` anywhere in `s` (Python `pat in s`). -/
def charsContain (s pat : List Char) : Bool :=
  match s with
  | [] => charsHaveLead pat []
  | _ :: rest => charsHaveLead pat s || charsContain rest pat

/-- Python substring test `pat in s`. -/
def strContains (s pat : String) : Bool := charsContain s.toList pat.toList

/-- Half-to-even rounding of a rational to an integer, the Python `round` on the
exact value (float representation error is abstracted away). -/
def roundHalfEven (q : ℚ) : ℤ :=
  let f : ℤ := ⌊q⌋
  if q - f < 1/2 then f
  else if (1:ℚ)/2 < q - f then f + 1
  else if f % 2 = 0 then f else f + 1

/-- Python `round(x, 1)`. -/
def round1 (q : ℚ) : ℚ := (roundHalfEven (q * 10) : ℚ) / 10

/-- Result shape of `calculate_sleep_score`. -/
structure SleepScore where
  score : ℚ
  quality_score : ℚ
  duration_score : ℚ
  consistency_score : ℚ
deriving DecidableEq, Repr

/-- The sleep-quality lexicon of `calculate_sleep_score` (default 60). -/
def sleepQualityScore (t : String) : Nat :=
  if t = "Excellent" then 100
  else if t = "Good" then 80
  else if t = "Average" then 60
  else if t = "Poor" then 40
  else if t = "Very Poor" then 20
  else 60

/-- The sleep-duration lexicon of `calculate_sleep_score` (default 60). -/
def sleepDurationScore (t : String) : Nat :=
  if t = "Less than 3 hours" then 20
  else if t = "3-4 hours" then 40
  else if t = "5-6 hours" then 60
  else if t = "7-8 hours" then 90
  else if t = "8+ hours" then 100
  else 60

/-- The bedtime-label to hour-of-day map of `calculate_sleep_score`. -/
def bedtimeValue (t : String) : Option ℚ :=
  if t = "9pm" then some 21
  else if t = "10pm" then some 22
  else if t = "11pm" then some 23
  else if t = "Midnight" then some 24
  else if t = "After Midnight" then some 25
  else none

/-- Accumulator of the sleep scan: quality total/count, duration
total/count, and the collected bedtime labels. -/
structure SleepState where
  qTotal : Nat
  qCnt : Nat
  dTotal : Nat
  dCnt : Nat
  bedtimes : List String
deriving DecidableEq, Repr

/-- One answer of the sleep scan: answers with a truthy option are routed
to the quality, duration or bedtime bucket by question id. -/
def sleepStep (quality_qid duration_qid bedtime_qid : String)
    (options_map : OptionsMap) (st : SleepState) (a : Answer) : SleepState :=
  if truthy a.selected_option_id then
    let t := get_option_text_from_id (pyStr a.selected_option_id) options_map
    if pyStr a.question_id = quality_qid then
      ⟨st.qTotal + sleepQualityScore t, st.qCnt + 1, st.dTotal, st.dCnt,
        st.bedtimes⟩
    else if pyStr a.question_id = duration_qid then
      ⟨st.qTotal, st.qCnt, st.dTotal + sleepDurationScore t, st.dCnt + 1,
        st.bedtimes⟩
    else if pyStr a.question_id = bedtime_qid then
      ⟨st.qTotal, st.qCnt, st.dTotal, st.dCnt, st.bedtimes ++ [t]⟩
    else st
  else st

/-- Embeds `calculate_sleep_score`: weighted composite (50% quality, 30% duration,
20% bedtime consistency) over the sleep answers; each sub-score defaults
(60, 60 and 50 respectively) when its source answers are absent. -/
def calculate_sleep_score (responses : List Response)
    (quality_qid duration_qid bedtime_qid : String)
    (options_map : OptionsMap) : SleepScore :=
  if responses.isEmpty then ⟨0, 0, 0, 0⟩
  else
    let st : SleepState :=
      responses.foldl (fun st r =>
        r.answers.foldl (sleepStep quality_qid duration_qid bedtime_qid
          options_map) st) ⟨0, 0, 0, 0, []⟩
    let avg_quality : ℚ := if 0 < st.qCnt then (st.qTotal : ℚ) / st.qCnt else 60
    let avg_duration : ℚ := if 0 < st.dCnt then (st.dTotal : ℚ) / st.dCnt else 60
    let consistency : ℚ :=
      if st.bedtimes.isEmpty then 50
      else
        let numeric : List ℚ := st.bedtimes.filterMap bedtimeValue
        if numeric.isEmpty then 50
        else
          let avg : ℚ := numeric.sum / numeric.length
          let variance : ℚ :=
            (numeric.map (fun bt => (bt - avg) ^ 2)).sum / numeric.length
          max 0 (100 - variance * 10)
    let composite : ℚ :=
      avg_quality * (1/2) + avg_duration * (3/10) + consistency * (1/5)
    ⟨round1 composite, round1 avg_quality, round1 avg_duration,
      round1 consistency⟩

/-- Result shape of `calculate_nutrition_ratio`. -/
structure NutritionRatio where
  healthy_count : Nat
  easy_count : Nat
  total_meals : Nat
  healthy_percentage : ℚ
  easy_percentage : ℚ
deriving DecidableEq, Repr

/-- Embeds `calculate_nutrition_ratio`: classify nutrition sub-question answers as
healthy or easy by substring match against the resolved option text. -/
def calculate_nutrition_ratio (responses : List Response)
    (question_id : String) (options_map : OptionsMap) : NutritionRatio :=
  if responses.isEmpty then ⟨0, 0, 0, 0, 0⟩
  else
    let st : Nat × Nat :=
      responses.foldl (fun st r =>
        r.answers.foldl (fun st a =>
          if pyStr a.question_id = question_id ∧ truthy a.sub_question_id ∧
              truthy a.selected_option_id then
            let t := get_option_text_from_id (pyStr a.selected_option_id)
              options_map
            if strContains t "Healthy" || strContains t "Fruit & Veg" then
              (st.1 + 1, st.2)
            else if strContains t "Easy" || strContains t "Snacks" then
              (st.1, st.2 + 1)
            else st
          else st) st) (0, 0)
    let total := st.1 + st.2
    let hp : ℚ := if 0 < total then (st.1 : ℚ) / total * 100 else 0
    let ep : ℚ := if 0 < total then (st.2 : ℚ) / total * 100 else 0
    ⟨st.1, st.2, total, round1 hp, round1 ep⟩

/-- Result shape of `calculate_exercise_distribution` (and of the other
counter-shaped distributions). -/
structure DistributionResult where
  distribution : List (String × Nat)
  percentages : List (String × ℚ)
  total_responses : Nat
deriving DecidableEq, Repr

/-- Embeds `calculate_exercise_distribution`: counter of resolved option texts of
the answers to the exercise question, with percentage-of-total. -/
def calculate_exercise_distribution (responses : List Response)
    (question_id : String) (options_map : OptionsMap) : DistributionResult :=
  if responses.isEmpty then ⟨[], [], 0⟩
  else
    let counter : List (String × Nat) :=
      responses.foldl (fun acc r =>
        r.answers.foldl (fun acc a =>
          if pyStr a.question_id = question_id ∧ truthy a.selected_option_id then
            bump acc (get_option_text_from_id (pyStr a.selected_option_id)
              options_map)
          else acc) acc) []
    let total : Nat := (counter.map (·.2)).sum
    let percentages := counter.map (fun p =>
      (p.1, if 0 < total then (p.2 : ℚ) / total * 100 else 0))
    ⟨counter, percentages, total⟩

/-- Result shape of `calculate_hydration_consistency`. -/
structure HydrationConsistency where
  adequate_days : Nat
  low_days : Nat
  total_days : Nat
  adequate_percentage : ℚ
  consistency_score : ℚ
deriving DecidableEq, Repr

/-- The per-response scan of `calculate_hydration_consistency`: the first
answer to the hydration question with a truthy option classifies the
response (adequate / low / unclassified) and stops the scan (`break`). -/
def hydrationClassify (question_id : String) (options_map : OptionsMap)
    (r : Response) : Option Bool :=
  match r.answers.find? (fun a =>
      pyStr a.question_id == question_id && truthy a.selected_option_id) with
  | none => none
  | some a =>
      let t := get_option_text_from_id (pyStr a.selected_option_id) options_map
      if strContains t "Adequate" || strContains t ">" then some true
      else if strContains t "Low" || strContains t "<" then some false
      else none

/-- Embeds `calculate_hydration_consistency`: over the last `days` days (from
`nowOrd`, the ordinal of `datetime.utcnow().date()`), classify each day's
responses and report the share of adequate days.  The response grouping by
date key resolves to a filter on equal dates. -/
def calculate_hydration_consistency (responses : List Response)
    (question_id : String) (days : Nat) (options_map : OptionsMap)
    (nowOrd : Int) : HydrationConsistency :=
  if responses.isEmpty then ⟨0, 0, 0, 0, 0⟩
  else
    let st : Nat × Nat :=
      (List.range days).foldl (fun st i =>
        let target : Date := dateOfOrd (nowOrd - i)
        let day_responses := responses.filter (fun r => r.date = some target)
        day_responses.foldl (fun st r =>
          match hydrationClassify question_id options_map r with
          | some true => (st.1 + 1, st.2)
          | some false => (st.1, st.2 + 1)
          | none => st) st) (0, 0)
    let total := st.1 + st.2
    let ap : ℚ := if 0 < total then (st.1 : ℚ) / total * 100 else 0
    ⟨st.1, st.2, total, round1 ap, round1 ap⟩

/-! ### Specification-side definitions

These definitions restate parts of the wording of the specification
independently of the embedded code, so that theorems comparing the two
have content. -/

/-- The resolved option text of an answer counted by the mood scorer
(`none` when the answer is filtered out). -/
def moodExtract (question_id : String) (options_map : OptionsMap)
    (a : Answer) : Option String :=
  if pyStr a.question_id = question_id ∧ truthy a.selected_option_id then
    some (get_option_text_from_id (pyStr a.selected_option_id) options_map)
  else none

/-- The mood answers actually counted by the mood scorer, as a flat list
of resolved option texts (spec-side view of the nested scan). -/
def moodTexts (responses : List Response) (question_id : String)
    (options_map : OptionsMap) : List String :=
  responses.flatMap (fun r => r.answers.filterMap (moodExtract question_id options_map))

/-- The claimed mood-score formula (`round(100 * positive_count /
(positive_count + negative_count))`, 50 when no sentiment signal is
found), written from the words of the spec for comparison with the code. -/
def claimedMoodFormula (pos neg : Nat) : Nat :=
  if pos + neg = 0 then 50
  else (roundHalfEven (100 * (pos : ℚ) / ((pos : ℚ) + neg))).toNat

/-- A chain of `k` consecutive dates ending at `x`, all present in `s`:
the property counted by the current-streak backward walk. -/
def StreakChain (s : List Int) (x : Int) (k : Nat) : Prop :=
  ∀ i : Nat, i < k → (x - (i : Int)) ∈ s

/-- Spec-side weekly total: sum of daily counts of the points falling in
week `w`. -/
def weekTotal (l : List DailyPoint) (w : Int) : Nat :=
  ((l.filter (fun p => weekOf p = w)).map (·.count)).sum

/-- Spec-side number of days present in week `w` (daily points carrying
distinct dates). -/
def weekDayCount (l : List DailyPoint) (w : Int) : Nat :=
  (l.filter (fun p => weekOf p = w)).length

/-! ### Generic fold and association-list lemmas -/

theorem foldl_id_of_fix {α β : Type} (g : β → α → β) (l : List α) (st : β)
    (h : ∀ (st' : β) (a : α), a ∈ l → g st' a = st') : l.foldl g st = st := by
  induction l generalizing st with
  | nil => rfl
  | cons a l ih =>
      rw [List.foldl_cons, h st a (List.mem_cons_self a l)]
      exact ih st (fun st' b hb => h st' b (List.mem_cons_of_mem a hb))

theorem foldl_inv {α β : Type} (P : β → Prop) (g : β → α → β) (l : List α)
    (st : β) (h0 : P st) (hstep : ∀ (st' : β) (a : α), P st' → P (g st' a)) :
    P (l.foldl g st) := by
  induction l generalizing st with
  | nil => exact h0
  | cons a l ih => exact ih (g st a) (hstep st a h0)

theorem foldl_filterMap_eq {α β γ : Type} (f : α → Option β) (g : γ → β → γ)
    (l : List α) (st : γ) :
    (l.filterMap f).foldl g st =
      l.foldl (fun st a =>
        match f a with
        | some b => g st b
        | none => st) st := by
  induction l generalizing st with
  | nil => rfl
  | cons a l ih =>
      cases hfa : f a <;>
        simp [List.filterMap_cons, hfa, ih]

theorem foldl_flatMap_eq {α β γ : Type} (f : α → List β) (g : γ → β → γ)
    (l : List α) (st : γ) :
    (l.flatMap f).foldl g st = l.foldl (fun st a => (f a).foldl g st) st := by
  induction l generalizing st with
  | nil => rfl
  | cons a l ih => simp [List.flatMap_cons, List.foldl_append, ih]

theorem foldl_filterMap_if {α β γ : Type} (P : α → Prop) [DecidablePred P]
    (f : α → β) (g : γ → β → γ) (l : List α) (st : γ) :
    (l.filterMap (fun a => if P a then some (f a) else none)).foldl g st =
      l.foldl (fun st a => if P a then g st (f a) else st) st := by
  induction l generalizing st with
  | nil => rfl
  | cons a l ih =>
      by_cases h : P a <;> simp [List.filterMap_cons, h, ih]

theorem alGet_cons_pos {κ α : Type} [DecidableEq κ]
    {q : κ × α} {c : List (κ × α)} {k : κ} (h : q.1 = k) :
    alGet (q :: c) k = some q.2 := by
  unfold alGet
  rw [List.find?_cons_of_pos _ (by simpa using h)]
  rfl

theorem alGet_cons_neg {κ α : Type} [DecidableEq κ]
    {q : κ × α} {c : List (κ × α)} {k : κ} (h : ¬ q.1 = k) :
    alGet (q :: c) k = alGet c k := by
  unfold alGet
  rw [List.find?_cons_of_neg _ (by simpa using h)]

theorem alGet_eq_some_of_mem {κ α : Type} [DecidableEq κ]
    {c : List (κ × α)} (hnd : (c.map Prod.fst).Nodup) {p : κ × α}
    (hp : p ∈ c) : alGet c p.1 = some p.2 := by
  induction c with
  | nil => cases hp
  | cons q c ih =>
      simp only [List.map_cons, List.nodup_cons, List.mem_map] at hnd
      rcases List.mem_cons.mp hp with h | h
      · subst h
        exact alGet_cons_pos rfl
      · by_cases hk : q.1 = p.1
        · exact absurd ⟨p, h, hk.symm⟩ hnd.1
        · rw [alGet_cons_neg hk]
          exact ih hnd.2 h

theorem mem_of_alGet_eq_some {κ α : Type} [DecidableEq κ]
    {c : List (κ × α)} {k : κ} {v : α} (h : alGet c k = some v) :
    (k, v) ∈ c := by
  unfold alGet at h
  cases hf : c.find? (fun p => p.1 = k) with
  | none => rw [hf] at h; cases h
  | some p =>
      rw [hf] at h
      have hp := List.find?_some hf
      have hmem := List.mem_of_find?_eq_some hf
      simp only [decide_eq_true_eq] at hp
      simp only [Option.map_some', Option.some.injEq] at h
      have : p = (k, v) := by
        cases p
        simp_all
      rwa [this] at hmem

theorem alGet_map_entry {κ α β : Type} [DecidableEq κ]
    (c : List (κ × α)) (f : κ × α → β) (k : κ) :
    alGet (c.map (fun p => (p.1, f p))) k =
      (c.find? (fun p => p.1 = k)).map f := by
  induction c with
  | nil => rfl
  | cons q c ih =>
      rw [List.map_cons]
      by_cases hk : q.1 = k
      · rw [alGet_cons_pos (show (q.1, f q).1 = k from hk),
          List.find?_cons_of_pos _ (by simpa using hk)]
        rfl
      · rw [alGet_cons_neg (show ¬ (q.1, f q).1 = k from hk),
          List.find?_cons_of_neg _ (by simpa using hk), ih]

theorem bump_keys_nodup {κ : Type} [DecidableEq κ]
    {c : List (κ × Nat)} (hnd : (c.map Prod.fst).Nodup) (k : κ) :
    ((bump c k).map Prod.fst).Nodup := by
  unfold bump
  by_cases hmem : c.any (fun p => p.1 = k)
  · rw [if_pos hmem]
    have : ((c.map (fun p => if p.1 = k then (p.1, p.2 + 1) else p)).map
        Prod.fst) = c.map Prod.fst := by
      rw [List.map_map]
      refine List.map_congr_left (fun p _ => ?_)
      by_cases h : p.1 = k <;> simp [h]
    rwa [this]
  · rw [if_neg hmem]
    simp only [List.any_eq_true, decide_eq_true_eq, not_exists, not_and] at hmem
    rw [List.map_append]
    simp only [List.map_cons, List.map_nil]
    rw [List.nodup_append]
    refine ⟨hnd, List.nodup_singleton k, ?_⟩
    intro x hx
    rcases List.mem_map.mp hx with ⟨p, hp, rfl⟩
    simp only [List.mem_singleton]
    intro hcontra
    exact hmem p hp hcontra

theorem bump_pos {κ : Type} [DecidableEq κ]
    {c : List (κ × Nat)} (hpos : ∀ p ∈ c, 1 ≤ p.2) (k : κ) :
    ∀ p ∈ bump c k, 1 ≤ p.2 := by
  intro p hp
  unfold bump at hp
  by_cases hmem : c.any (fun q => q.1 = k)
  · rw [if_pos hmem] at hp
    rcases List.mem_map.mp hp with ⟨q, hq, rfl⟩
    by_cases h : q.1 = k
    · simp only [h, if_pos rfl]
      exact le_trans (hpos q hq) (by simp)
    · simp only [if_neg h]
      exact hpos q hq
  · rw [if_neg hmem] at hp
    rcases List.mem_append.mp hp with h | h
    · exact hpos p h
    · simp only [List.mem_singleton] at h
      subst h
      exact le_refl 1

theorem bump_sum {κ : Type} [DecidableEq κ]
    {c : List (κ × Nat)} (hnd : (c.map Prod.fst).Nodup) (k : κ) :
    ((bump c k).map (·.2)).sum = (c.map (·.2)).sum + 1 := by
  unfold bump
  by_cases hmem : c.any (fun p => p.1 = k)
  · rw [if_pos hmem]
    simp only [List.any_eq_true, decide_eq_true_eq] at hmem
    rcases hmem with ⟨q, hq, hqk⟩
    induction c with
    | nil => cases hq
    | cons r c ih =>
        simp only [List.map_cons, List.nodup_cons, List.mem_map] at hnd
        rcases List.mem_cons.mp hq with h | h
        · subst h
          have hrest : c.map (fun p => if p.1 = k then (p.1, p.2 + 1) else p)
              = c :=
            calc c.map (fun p => if p.1 = k then (p.1, p.2 + 1) else p)
                = c.map id := by
                  refine List.map_congr_left (fun p hp => ?_)
                  have hne : ¬ p.1 = k := by
                    intro hc
                    exact hnd.1 ⟨p, hp, by rw [hc, hqk]⟩
                  simp [hne]
              _ = c := List.map_id c
          simp only [List.map_cons, hrest, List.sum_cons, if_pos hqk]
          omega
        · have hrk : ¬ r.1 = k := by
            intro hc
            exact hnd.1 ⟨q, h, by rw [hqk, hc]⟩
          simp only [List.map_cons, List.sum_cons, if_neg hrk]
          rw [ih hnd.2 h]
          omega
  · rw [if_neg hmem]
    simp [List.sum_append]

theorem alGet_append_single {κ α : Type} [DecidableEq κ]
    (l : List (κ × α)) (q : κ × α) (w : κ) :
    alGet (l ++ [q]) w =
      match alGet l w with
      | some v => some v
      | none => if q.1 = w then some q.2 else none := by
  induction l with
  | nil =>
      by_cases h : q.1 = w
      · simp [alGet, List.find?_nil, h]
      · simp [alGet, List.find?_nil, h]
  | cons r l ih =>
      by_cases h : r.1 = w
      · rw [List.cons_append, alGet_cons_pos h, alGet_cons_pos h]
      · rw [List.cons_append, alGet_cons_neg h, alGet_cons_neg h, ih]

theorem alGet_eq_none_of_not_any {κ α : Type} [DecidableEq κ]
    {l : List (κ × α)} {k : κ} (h : ¬ l.any (fun p => p.1 = k)) :
    alGet l k = none := by
  unfold alGet
  rw [List.find?_eq_none.mpr]
  · rfl
  · intro p hp hpk
    simp only [List.any_eq_true, decide_eq_true_eq, not_exists, not_and] at h
    exact h p hp (by simpa using hpk)

theorem alGet_isSome_of_any {κ α : Type} [DecidableEq κ]
    {l : List (κ × α)} {k : κ} (h : l.any (fun p => p.1 = k)) :
    ∃ v, alGet l k = some v := by
  simp only [List.any_eq_true, decide_eq_true_eq] at h
  rcases h with ⟨p, hp, hpk⟩
  induction l with
  | nil => cases hp
  | cons q l ih =>
      by_cases hq : q.1 = k
      · exact ⟨q.2, alGet_cons_pos hq⟩
      · rw [alGet_cons_neg hq]
        rcases List.mem_cons.mp hp with h | h
        · exact absurd (h ▸ hpk) hq
        · exact ih h

theorem alGet_weekMap_update (wd : List (Int × Nat × Nat)) (k : Int) (c : Nat)
    (w : Int) :
    alGet (wd.map (fun p => if p.1 = k then (p.1, p.2.1 + c, p.2.2 + 1) else p))
        w =
      if w = k then (alGet wd k).map (fun pr => (pr.1 + c, pr.2 + 1))
      else alGet wd w := by
  induction wd with
  | nil => by_cases hwk : w = k <;> simp [alGet, hwk]
  | cons q wd ih =>
      simp only [List.map_cons]
      by_cases hqk : q.1 = k
      · rw [if_pos hqk]
        by_cases hwk : w = k
        · subst hwk
          rw [if_pos rfl,
            alGet_cons_pos (show (q.1, q.2.1 + c, q.2.2 + 1).1 = w from hqk),
            alGet_cons_pos hqk]
          rfl
        · have hq1w : ¬ q.1 = w := fun h => hwk ((hqk.symm.trans h).symm)
          rw [if_neg hwk,
            alGet_cons_neg (show ¬ (q.1, q.2.1 + c, q.2.2 + 1).1 = w from hq1w),
            alGet_cons_neg hq1w, ih, if_neg hwk]
      · rw [if_neg hqk]
        by_cases hqw : q.1 = w
        · have hwk : ¬ w = k := fun h => hqk (hqw.trans h)
          rw [if_neg hwk, alGet_cons_pos hqw, alGet_cons_pos hqw]
        · rw [alGet_cons_neg hqw, alGet_cons_neg hqw, ih]
          by_cases hwk : w = k
          · rw [if_pos hwk, if_pos hwk, alGet_cons_neg hqk]
          · rw [if_neg hwk, if_neg hwk]

theorem weekBump_lookup (wd : List (Int × Nat × Nat)) (k : Int) (c : Nat)
    (w : Int) :
    alGet (weekBump wd k c) w =
      if w = k then
        some ((alGet wd k).elim (c, 1) (fun pr => (pr.1 + c, pr.2 + 1)))
      else alGet wd w := by
  unfold weekBump
  by_cases hany : wd.any (fun p => p.1 = k)
  · rw [if_pos hany, alGet_weekMap_update]
    rcases alGet_isSome_of_any hany with ⟨v, hv⟩
    by_cases hwk : w = k
    · rw [if_pos hwk, if_pos hwk, hv]
      rfl
    · rw [if_neg hwk, if_neg hwk]
  · rw [if_neg hany, alGet_append_single]
    have hnone : alGet wd k = none := alGet_eq_none_of_not_any hany
    by_cases hwk : w = k
    · rw [if_pos hwk, hwk, hnone]
      simp
    · rw [if_neg hwk]
      cases hw : alGet wd w with
      | some v => rfl
      | none =>
          simp only []
          rw [if_neg (show ¬ (k : Int) = w from fun h => hwk h.symm)]

theorem weekBump_keys_nodup {wd : List (Int × Nat × Nat)}
    (hnd : (wd.map Prod.fst).Nodup) (k : Int) (c : Nat) :
    ((weekBump wd k c).map Prod.fst).Nodup := by
  unfold weekBump
  by_cases hany : wd.any (fun p => p.1 = k)
  · rw [if_pos hany]
    have : ((wd.map (fun p => if p.1 = k then (p.1, p.2.1 + c, p.2.2 + 1)
        else p)).map Prod.fst) = wd.map Prod.fst := by
      rw [List.map_map]
      refine List.map_congr_left (fun p _ => ?_)
      by_cases h : p.1 = k <;> simp [h]
    rwa [this]
  · rw [if_neg hany]
    simp only [List.any_eq_true, decide_eq_true_eq, not_exists, not_and] at hany
    rw [List.map_append]
    simp only [List.map_cons, List.map_nil]
    rw [List.nodup_append]
    refine ⟨hnd, List.nodup_singleton k, ?_⟩
    intro x hx
    rcases List.mem_map.mp hx with ⟨p, hp, rfl⟩
    simp only [List.mem_singleton]
    intro hcontra
    exact hany p hp hcontra

theorem weekTotal_cons (p : DailyPoint) (l : List DailyPoint) (w : Int) :
    weekTotal (p :: l) w =
      (if weekOf p = w then p.count else 0) + weekTotal l w := by
  unfold weekTotal
  by_cases h : weekOf p = w <;> simp [List.filter_cons, h]

theorem weekDayCount_cons (p : DailyPoint) (l : List DailyPoint) (w : Int) :
    weekDayCount (p :: l) w =
      (if weekOf p = w then 1 else 0) + weekDayCount l w := by
  unfold weekDayCount
  by_cases h : weekOf p = w <;> simp [List.filter_cons, h, Nat.add_comm]

theorem weekTotal_eq_zero_of_dayCount {l : List DailyPoint} {w : Int}
    (h : weekDayCount l w = 0) : weekTotal l w = 0 := by
  unfold weekDayCount at h
  unfold weekTotal
  rw [List.length_eq_zero] at h
  rw [h]
  rfl

theorem weekFold_lookup (l : List DailyPoint) :
    ∀ (acc : List (Int × Nat × Nat)) (w : Int),
      alGet (l.foldl (fun acc p => weekBump acc (weekOf p) p.count) acc) w =
        if weekDayCount l w = 0 then alGet acc w
        else
          some ((alGet acc w).elim (weekTotal l w, weekDayCount l w)
            (fun pr => (pr.1 + weekTotal l w, pr.2 + weekDayCount l w))) := by
  induction l with
  | nil =>
      intro acc w
      simp [weekDayCount, weekTotal]
  | cons p l ih =>
      intro acc w
      rw [List.foldl_cons, ih, weekTotal_cons, weekDayCount_cons,
        weekBump_lookup]
      by_cases hw : weekOf p = w
      · rw [← hw]
        simp only [eq_self_iff_true, if_true]
        by_cases hD : weekDayCount l (weekOf p) = 0
        · rw [if_pos hD, if_neg (by omega),
            weekTotal_eq_zero_of_dayCount hD, hD]
          cases hA : alGet acc (weekOf p) <;> simp [hA]
        · rw [if_neg hD, if_neg (by omega)]
          cases hA : alGet acc (weekOf p) <;>
            simp only [hA, Option.elim_none, Option.elim_some,
              Option.some.injEq, Prod.mk.injEq] <;>
            omega
      · rw [if_neg (show ¬ w = weekOf p from fun h => hw h.symm),
          if_neg hw, if_neg hw, Nat.zero_add, Nat.zero_add]

/-! ### Streak lemmas -/

theorem backWalk_chain (s : List Int) :
    ∀ (fuel : Nat) (check : Int), StreakChain s check (backWalk s fuel check) := by
  intro fuel
  induction fuel with
  | zero =>
      intro check i hi
      simp only [backWalk] at hi
      omega
  | succ fuel ih =>
      intro check
      unfold backWalk
      by_cases hmem : check ∈ s
      · rw [if_pos hmem]
        intro i hi
        match i with
        | 0 => simpa using hmem
        | j + 1 =>
            have := ih (check - 1) j (by omega)
            have harith : check - 1 - (j : Int) = check - ((j : Nat) + 1 : Nat) := by
              push_cast
              ring
            rwa [harith] at this
      · rw [if_neg hmem]
        intro i hi
        omega

theorem longestStreakAux_le (rest : List Int) :
    ∀ (prev : Int) (streak longest : Nat),
      longestStreakAux prev streak longest rest ≤
        max longest (streak + rest.length) := by
  induction rest with
  | nil =>
      intro prev streak longest
      unfold longestStreakAux
      omega
  | cons d rest ih =>
      intro prev streak longest
      unfold longestStreakAux
      by_cases h : d - prev = 1
      · rw [if_pos h]
        refine le_trans (ih d (streak + 1) (max longest (streak + 1))) ?_
        simp only [List.length_cons]
        omega
      · rw [if_neg h]
        refine le_trans (ih d 1 longest) ?_
        simp only [List.length_cons]
        omega

theorem longestStreak_le_length (L : List Int) : longestStreak L ≤ L.length := by
  cases L with
  | nil => exact le_refl 0
  | cons d rest =>
      unfold longestStreak
      refine le_trans (longestStreakAux_le rest d 1 1) ?_
      simp only [List.length_cons]
      omega

theorem streakChain_mono {s : List Int} {x : Int} {k k' : Nat}
    (h : StreakChain s x k) (hk : k' ≤ k) : StreakChain s x k' :=
  fun i hi => h i (lt_of_lt_of_le hi hk)

theorem longestStreakAux_chain_bound (L : List Int) :
    ∀ (rest : List Int) (prev : Int) (streak longest : Nat),
      (∀ x, x ∈ L → x ≤ prev ∨ x ∈ rest) →
      (∀ x, x ∈ rest → prev < x) →
      rest.Pairwise (· < ·) →
      (∀ k, StreakChain L prev k → k ≤ streak) →
      1 ≤ streak →
      streak ≤ longest →
      (∀ x, x ∈ L → x ≤ prev → ∀ k, StreakChain L x k → k ≤ longest) →
      ∀ x, x ∈ L → ∀ k, StreakChain L x k →
        k ≤ longestStreakAux prev streak longest rest := by
  intro rest
  induction rest with
  | nil =>
      intro prev streak longest hsplit hgt _ _ _ _ hpast x hx k hk
      unfold longestStreakAux
      rcases hsplit x hx with h | h
      · exact hpast x hx h k hk
      · cases h
  | cons d rest ih =>
      intro prev streak longest hsplit hgt hpw hcur hstreak1 hsl hpast x hx k hk
      have hpd : prev < d := hgt d (List.mem_cons_self d rest)
      have hrest_gt : ∀ y, y ∈ rest → d < y := by
        intro y hy
        exact (List.pairwise_cons.mp hpw).1 y hy
      have hnew_cur : ∀ k', StreakChain L d k' → k' ≤
          (if d - prev = 1 then streak + 1 else 1) := by
        intro k' hk'
        by_cases hstep : d - prev = 1
        · rw [if_pos hstep]
          match k' with
          | 0 => omega
          | j + 1 =>
              have hprevchain : StreakChain L prev j := by
                intro i hi
                have := hk' (i + 1) (by omega)
                have harith : d - ((i : Nat) + 1 : Nat) = prev - (i : Int) := by
                  push_cast
                  omega
                rwa [harith] at this
              have := hcur j hprevchain
              omega
        · rw [if_neg hstep]
          match k' with
          | 0 => omega
          | 1 => omega
          | j + 2 =>
              exfalso
              have hd1 : d - 1 ∈ L := by
                have := hk' 1 (by omega)
                simpa using this
              rcases hsplit (d - 1) hd1 with h | h
              · omega
              · rcases List.mem_cons.mp h with h | h
                · omega
                · have := hrest_gt (d - 1) h
                  omega
      unfold longestStreakAux
      by_cases hstep : d - prev = 1
      · rw [if_pos hstep]
        refine ih d (streak + 1) (max longest (streak + 1)) ?_ hrest_gt
          (List.pairwise_cons.mp hpw).2 ?_ (by omega) (by omega) ?_ x hx k hk
        · intro y hy
          rcases hsplit y hy with h | h
          · exact Or.inl (by omega)
          · rcases List.mem_cons.mp h with h | h
            · exact Or.inl (by omega)
            · exact Or.inr h
        · intro k' hk'
          have := hnew_cur k' hk'
          rwa [if_pos hstep] at this
        · intro y hy hyd k' hk'
          rcases hsplit y hy with h | h
          · exact le_trans (hpast y hy h k' hk') (le_max_left _ _)
          · rcases List.mem_cons.mp h with h | h
            · subst h
              have := hnew_cur k' hk'
              rw [if_pos hstep] at this
              omega
            · have := hrest_gt y h
              omega
      · rw [if_neg hstep]
        refine ih d 1 longest ?_ hrest_gt (List.pairwise_cons.mp hpw).2 ?_
          (le_refl 1) (by omega) ?_ x hx k hk
        · intro y hy
          rcases hsplit y hy with h | h
          · exact Or.inl (by omega)
          · rcases List.mem_cons.mp h with h | h
            · exact Or.inl (by omega)
            · exact Or.inr h
        · intro k' hk'
          have := hnew_cur k' hk'
          rwa [if_neg hstep] at this
        · intro y hy hyd k' hk'
          rcases hsplit y hy with h | h
          · exact hpast y hy h k' hk'
          · rcases List.mem_cons.mp h with h | h
            · subst h
              have := hnew_cur k' hk'
              rw [if_neg hstep] at this
              omega
            · have := hrest_gt y h
              omega

theorem longestStreak_ge_chain {L : List Int} (hpw : L.Pairwise (· < ·))
    {x : Int} (hx : x ∈ L) {k : Nat} (hk : StreakChain L x k) :
    k ≤ longestStreak L := by
  cases L with
  | nil => cases hx
  | cons d rest =>
      unfold longestStreak
      have hd_gt : ∀ y, y ∈ rest → d < y := (List.pairwise_cons.mp hpw).1
      have hmin_chain : ∀ k', StreakChain (d :: rest) d k' → k' ≤ 1 := by
        intro k' hk'
        match k' with
        | 0 => omega
        | 1 => omega
        | j + 2 =>
            exfalso
            have hd1 : d - 1 ∈ d :: rest := by
              have := hk' 1 (by omega)
              simpa using this
            rcases List.mem_cons.mp hd1 with h | h
            · omega
            · have := hd_gt (d - 1) h
              omega
      refine longestStreakAux_chain_bound (d :: rest) rest d 1 1 ?_ hd_gt
        (List.pairwise_cons.mp hpw).2 hmin_chain (le_refl 1) (le_refl 1) ?_
        x hx k hk
      · intro y hy
        rcases List.mem_cons.mp hy with h | h
        · exact Or.inl (le_of_eq h)
        · exact Or.inr h
      · intro y hy hyd k' hk'
        rcases List.mem_cons.mp hy with h | h
        · exact hmin_chain k' (h ▸ hk')
        · have := hd_gt y h
          omega

/-! ### Mood-scan lemmas -/

theorem moodFold_char (ts : List String) :
    ∀ st : MoodState,
      ts.foldl moodStep st =
        ⟨st.pos + ts.countP (fun t => decide (t ∈ positiveOptions)),
         st.neg + ts.countP (fun t => decide (t ∈ negativeOptions)),
         st.total + (ts.map feelingScore).sum,
         st.cnt + ts.length,
         ts.foldl bump st.dist⟩ := by
  induction ts with
  | nil =>
      intro st
      simp [List.countP_nil]
  | cons t ts ih =>
      intro st
      rw [List.foldl_cons, ih]
      simp only [moodStep, List.countP_cons, List.map_cons, List.sum_cons,
        List.length_cons, List.foldl_cons, MoodState.mk.injEq,
        decide_eq_true_eq]
      refine ⟨by by_cases h : t ∈ positiveOptions <;> simp [h] <;> omega,
        by by_cases h : t ∈ negativeOptions <;> simp [h] <;> omega,
        by omega, by omega, trivial⟩

theorem moodScan_eq (responses : List Response) (question_id : String)
    (options_map : OptionsMap) (st : MoodState) :
    responses.foldl (fun st r =>
      r.answers.foldl (fun st a =>
        if pyStr a.question_id = question_id ∧ truthy a.selected_option_id then
          moodStep st (get_option_text_from_id (pyStr a.selected_option_id)
            options_map)
        else st) st) st =
      (moodTexts responses question_id options_map).foldl moodStep st := by
  unfold moodTexts
  rw [foldl_flatMap_eq]
  have hstep :
      (fun (st : MoodState) (r : Response) =>
        (r.answers.filterMap (moodExtract question_id options_map)).foldl
          moodStep st) =
      (fun (st : MoodState) (r : Response) =>
        r.answers.foldl (fun st a =>
          if pyStr a.question_id = question_id ∧ truthy a.selected_option_id then
            moodStep st (get_option_text_from_id (pyStr a.selected_option_id)
              options_map)
          else st) st) := by
    funext st r
    exact foldl_filterMap_if
      (fun a => pyStr a.question_id = question_id ∧
        truthy a.selected_option_id = true)
      (fun a => get_option_text_from_id (pyStr a.selected_option_id)
        options_map)
      moodStep r.answers st
  rw [hstep]

/-! ### Remaining shared helpers -/

theorem mapM_date_mem :
    ∀ {responses : List Response} {ds : List Date},
      responses.mapM Response.date = some ds →
      ∀ d ∈ ds, ∃ r ∈ responses, r.date = some d := by
  intro responses
  induction responses with
  | nil =>
      intro ds h d hd
      simp only [List.mapM_nil, pure, Option.some.injEq] at h
      subst h
      cases hd
  | cons r rs ih =>
      intro ds h d hd
      rw [List.mapM_cons] at h
      cases hr : r.date with
      | none => rw [hr] at h; cases h
      | some d0 =>
          rw [hr] at h
          cases hrest : rs.mapM Response.date with
          | none => rw [hrest] at h; cases h
          | some ds0 =>
              rw [hrest] at h
              simp only [Option.bind_eq_bind, Option.some_bind, pure,
                Option.some.injEq] at h
              subst h
              rcases List.mem_cons.mp hd with h | h
              · exact ⟨r, List.mem_cons_self r rs, by rw [hr, h]⟩
              · rcases ih hrest d h with ⟨r', hr', hd'⟩
                exact ⟨r', List.mem_cons_of_mem r hr', hd'⟩

theorem dedup_map_length_le {α β : Type} [DecidableEq α] [DecidableEq β]
    (l : List α) (f : α → β) :
    (l.map f).dedup.length ≤ l.dedup.length := by
  have h1 : (l.map f).dedup.Nodup := List.nodup_dedup _
  have h2 : (l.map f).dedup ⊆ l.dedup.map f := by
    intro x hx
    rcases List.mem_map.mp (List.mem_dedup.mp hx) with ⟨a, ha, rfl⟩
    exact List.mem_map.mpr ⟨a, List.mem_dedup.mpr ha, rfl⟩
  calc (l.map f).dedup.length ≤ (l.dedup.map f).length :=
        (h1.subperm h2).length_le
    _ = l.dedup.length := List.length_map _ _

/-! ### The claims -/

/-- C8: on the empty response collection every scorer returns its
documented zero/neutral default: `calculate_daily_progress` yields all four
streak/progress fields 0, `calculate_mood_score` yields overall score 50,
trend "neutral", zero counts and an empty distribution, and
`calculate_option_frequency` yields empty tables with zero total. -/
theorem c8_empty_defaults :
    (∀ today : Date, calculate_daily_progress [] today = some ⟨0, 0, 0, 0⟩) ∧
    (∀ (qid : String) (om : OptionsMap),
      calculate_mood_score [] qid om = ⟨50, "neutral", 0, 0, []⟩) ∧
    (∀ (qid sqid : Option String) (om : OptionsMap),
      calculate_option_frequency [] qid sqid om = ⟨[], [], [], 0⟩) :=
  ⟨fun _ => rfl, fun _ _ => rfl, fun _ _ _ => rfl⟩

/-- C5: the option resolver returns the mapped `option_text` when the id is
present in the options map (with its text field), returns the id unchanged
when the id is absent, and, being a total function, never raises. -/
theorem c5_option_resolver :
    (∀ (id : String) (om : OptionsMap) (entry : OptionEntry) (t : String),
      alGet om id = some entry → alGet entry "option_text" = some t →
      get_option_text_from_id id om = t) ∧
    (∀ (id : String) (om : OptionsMap),
      alGet om id = none → get_option_text_from_id id om = id) := by
  constructor
  · intro id om entry t hom hentry
    unfold get_option_text_from_id
    rw [hom]
    have hne : ¬ entry.isEmpty = true := by
      intro he
      rw [List.isEmpty_iff] at he
      subst he
      simp [alGet] at hentry
    show (if entry.isEmpty = true then id
      else (alGet entry "option_text").getD id) = t
    rw [if_neg hne, hentry]
    rfl
  · intro id om hom
    unfold get_option_text_from_id
    rw [hom]

/-- Witness for C5 at a concrete map: a present id resolves to its text, an
absent id falls back to itself. -/
theorem c5_witness :
    get_option_text_from_id "o1" [("o1", [("option_text", "A")])] = "A" ∧
    get_option_text_from_id "zz" [("o1", [("option_text", "A")])] = "zz" :=
  ⟨c5_option_resolver.1 "o1" [("o1", [("option_text", "A")])]
      [("option_text", "A")] "A" rfl rfl,
    c5_option_resolver.2 "zz" [("o1", [("option_text", "A")])] rfl⟩

/-- C2: when the most recent submission date is more than one day before
the processing date, the current streak is reported as 0, no matter how
many consecutive days precede it. -/
theorem c2_stale_streak (responses : List Response) (today : Date)
    (p : DailyProgress)
    (h : calculate_daily_progress responses today = some p)
    (hstale : ∀ r ∈ responses, ∀ d : Date, r.date = some d →
      2 ≤ today.toOrd - d.toOrd) :
    p.current_streak = 0 := by
  by_cases hemp : responses.isEmpty
  · simp only [calculate_daily_progress, if_pos hemp, Option.some.injEq] at h
    subst h
    rfl
  · simp only [calculate_daily_progress, if_neg hemp] at h
    cases hmap : responses.mapM Response.date with
    | none =>
        simp only [hmap] at h
        exact Option.noConfusion h
    | some rawDates =>
        simp only [hmap] at h
        by_cases hvalid : rawDates.all Date.valid
        · rw [if_pos hvalid] at h
          simp only [Option.some.injEq] at h
          subst h
          simp only []
          cases hmax : (List.insertionSort (· ≤ ·)
              (rawDates.map Date.toOrd).dedup).max? with
          | none => rfl
          | some m =>
              have hm_mem : m ∈ List.insertionSort (· ≤ ·)
                  (rawDates.map Date.toOrd).dedup :=
                List.max?_mem (fun a b => max_choice a b) hmax
              have hm_mem2 : m ∈ (rawDates.map Date.toOrd).dedup :=
                (List.perm_insertionSort _ _).mem_iff.mp hm_mem
              rcases List.mem_map.mp (List.mem_dedup.mp hm_mem2) with
                ⟨d, hd, rfl⟩
              rcases mapM_date_mem hmap d hd with ⟨r, hr, hrd⟩
              have hgap := hstale r hr d hrd
              dsimp only
              rw [if_neg (by omega)]
        · rw [if_neg hvalid] at h
          cases h

/-- Witness for C2: a single submission eleven days old yields current
streak 0. -/
theorem c2_witness :
    ∃ p : DailyProgress,
      calculate_daily_progress [⟨some ⟨2024, 9, 1⟩, []⟩] ⟨2024, 9, 12⟩ =
        some p ∧ p.current_streak = 0 := by
  refine ⟨⟨1, 0, 1, 1⟩, by decide, ?_⟩
  exact c2_stale_streak [⟨some ⟨2024, 9, 1⟩, []⟩] ⟨2024, 9, 12⟩ ⟨1, 0, 1, 1⟩
    (by decide) (by decide)

/-- C1: for every collection of (validly dated) responses the computed
streak metrics satisfy `current_streak ≤ longest_streak ≤ total_days`. -/
theorem c1_streak_invariant (responses : List Response) (today : Date)
    (p : DailyProgress)
    (h : calculate_daily_progress responses today = some p) :
    p.current_streak ≤ p.longest_streak ∧ p.longest_streak ≤ p.total_days := by
  by_cases hemp : responses.isEmpty
  · simp only [calculate_daily_progress, if_pos hemp, Option.some.injEq] at h
    subst h
    exact ⟨le_refl 0, le_refl 0⟩
  · simp only [calculate_daily_progress, if_neg hemp] at h
    cases hmap : responses.mapM Response.date with
    | none =>
        simp only [hmap] at h
        exact Option.noConfusion h
    | some rawDates =>
        simp only [hmap] at h
        by_cases hvalid : rawDates.all Date.valid
        · rw [if_pos hvalid] at h
          simp only [Option.some.injEq] at h
          subst h
          have hsorted : List.Sorted (· ≤ ·)
              (List.insertionSort (· ≤ ·) (rawDates.map Date.toOrd).dedup) :=
            List.sorted_insertionSort _ _
          have hnodup : (List.insertionSort (· ≤ ·)
              (rawDates.map Date.toOrd).dedup).Nodup :=
            ((List.perm_insertionSort _ _).nodup_iff).mpr
              (List.nodup_dedup _)
          have hpw : (List.insertionSort (· ≤ ·)
              (rawDates.map Date.toOrd).dedup).Pairwise (· < ·) :=
            (hsorted.and hnodup).imp (fun hab => lt_of_le_of_ne hab.1 hab.2)
          constructor
          · simp only []
            cases hmax : (List.insertionSort (· ≤ ·)
                (rawDates.map Date.toOrd).dedup).max? with
            | none => exact Nat.zero_le _
            | some m =>
                dsimp only
                by_cases hfresh : today.toOrd - m ≤ 1
                · rw [if_pos hfresh]
                  have hm_mem : m ∈ List.insertionSort (· ≤ ·)
                      (rawDates.map Date.toOrd).dedup :=
                    List.max?_mem (fun a b => max_choice a b) hmax
                  exact longestStreak_ge_chain hpw hm_mem
                    (backWalk_chain _ _ m)
                · rw [if_neg hfresh]
                  exact Nat.zero_le _
          · simp only []
            refine le_trans (longestStreak_le_length _) ?_
            rw [(List.perm_insertionSort _ _).length_eq]
            exact dedup_map_length_le rawDates Date.toOrd
        · rw [if_neg hvalid] at h
          cases h

theorem find?_key_eq_some_of_mem {κ α : Type} [DecidableEq κ]
    {c : List (κ × α)} (hnd : (c.map Prod.fst).Nodup) {p : κ × α}
    (hp : p ∈ c) : c.find? (fun q => q.1 = p.1) = some p := by
  induction c with
  | nil => cases hp
  | cons q c ih =>
      simp only [List.map_cons, List.nodup_cons, List.mem_map] at hnd
      rcases List.mem_cons.mp hp with h | h
      · subst h
        exact List.find?_cons_of_pos _ (by simp)
      · by_cases hk : q.1 = p.1
        · exact absurd ⟨p, h, hk.symm⟩ hnd.1
        · rw [List.find?_cons_of_neg _ (by simpa using hk)]
          exact ih hnd.2 h

/-- The invariant carried by the frequency scan: distinct counter keys,
positive counts, and a running total equal to the sum of the counts. -/
def CtrInv (st : List (String × Nat) × Nat) : Prop :=
  ((st.1.map Prod.fst).Nodup ∧ ∀ p ∈ st.1, 1 ≤ p.2) ∧
    st.2 = (st.1.map (·.2)).sum

theorem freq_fold_inv (responses : List Response)
    (question_id sub_question_id : Option String) (options_map : OptionsMap) :
    CtrInv (responses.foldl (fun st r =>
      r.answers.foldl (fun st a =>
        if freqAnswerOk question_id sub_question_id a then
          (bump st.1 (get_option_text_from_id (pyStr a.selected_option_id)
            options_map), st.2 + 1)
        else st) st) ([], 0)) := by
  refine foldl_inv CtrInv _ responses ([], 0) ⟨⟨by simp, by simp⟩, rfl⟩ ?_
  intro st r hP
  refine foldl_inv CtrInv _ r.answers st hP ?_
  intro st' a hP'
  by_cases hok : freqAnswerOk question_id sub_question_id a
  · rw [if_pos hok]
    exact ⟨⟨bump_keys_nodup hP'.1.1 _, bump_pos hP'.1.2 _⟩,
      by rw [bump_sum hP'.1.1]; rw [hP'.2]⟩
  · rw [if_neg hok]
    exact hP'

theorem freq_pct (responses : List Response)
    (question_id sub_question_id : Option String) (options_map : OptionsMap)
    {o : String} {c : Nat}
    (hmem : (o, c) ∈ (calculate_option_frequency responses question_id
      sub_question_id options_map).absolute_counts) :
    0 < (calculate_option_frequency responses question_id sub_question_id
        options_map).total_selections ∧
    alGet (calculate_option_frequency responses question_id sub_question_id
        options_map).percentages o =
      some ((c : ℚ) / (calculate_option_frequency responses question_id
        sub_question_id options_map).total_selections * 100) := by
  by_cases hemp : responses.isEmpty
  · unfold calculate_option_frequency at hmem ⊢
    rw [if_pos hemp] at hmem
    cases hmem
  · have hinv := freq_fold_inv responses question_id sub_question_id
      options_map
    unfold calculate_option_frequency at hmem ⊢
    rw [if_neg hemp] at hmem ⊢
    dsimp only at hmem ⊢
    revert hinv hmem
    generalize (responses.foldl (fun st r =>
      r.answers.foldl (fun st a =>
        if freqAnswerOk question_id sub_question_id a then
          (bump st.1 (get_option_text_from_id (pyStr a.selected_option_id)
            options_map), st.2 + 1)
        else st) st) (([], 0) : List (String × Nat) × Nat)) = st
    intro hmem hinv
    have htot : 0 < st.2 := by
      rw [hinv.2]
      calc 0 < 1 := Nat.zero_lt_one
        _ ≤ c := hinv.1.2 (o, c) hmem
        _ ≤ (st.1.map (·.2)).sum :=
          List.single_le_sum (fun x _ => Nat.zero_le x) c
            (List.mem_map.mpr ⟨(o, c), hmem, rfl⟩)
    refine ⟨htot, ?_⟩
    have hfind : st.1.find? (fun q => q.1 = o) = some (o, c) :=
      find?_key_eq_some_of_mem hinv.1.1 hmem
    rw [alGet_map_entry, hfind]
    simp only [Option.map_some', if_pos htot]

theorem freq_top (responses : List Response)
    (question_id sub_question_id : Option String) (options_map : OptionsMap) :
    (calculate_option_frequency responses question_id sub_question_id
        options_map).top_options.length ≤ 10 ∧
    (calculate_option_frequency responses question_id sub_question_id
        options_map).top_options.Pairwise (fun a b => b.2 ≤ a.2) ∧
    (∀ p ∈ (calculate_option_frequency responses question_id sub_question_id
        options_map).top_options,
      p ∈ (calculate_option_frequency responses question_id sub_question_id
        options_map).absolute_counts) ∧
    (∀ p ∈ (calculate_option_frequency responses question_id sub_question_id
        options_map).top_options,
      ∀ q ∈ (calculate_option_frequency responses question_id sub_question_id
        options_map).absolute_counts,
      q ∉ (calculate_option_frequency responses question_id sub_question_id
        options_map).top_options → q.2 ≤ p.2) := by
  by_cases hemp : responses.isEmpty
  · unfold calculate_option_frequency
    rw [if_pos hemp]
    exact ⟨by simp, by simp, by simp, by simp⟩
  · unfold calculate_option_frequency
    rw [if_neg hemp]
    dsimp only
    generalize (responses.foldl (fun st r =>
      r.answers.foldl (fun st a =>
        if freqAnswerOk question_id sub_question_id a then
          (bump st.1 (get_option_text_from_id (pyStr a.selected_option_id)
            options_map), st.2 + 1)
        else st) st) (([], 0) : List (String × Nat) × Nat)) = st
    have hsorted : (List.insertionSort cntGe st.1).Pairwise cntGe :=
      List.sorted_insertionSort cntGe st.1
    have hperm := List.perm_insertionSort cntGe st.1
    refine ⟨List.length_take_le 10 _, ?_, ?_, ?_⟩
    · exact (hsorted.sublist (List.take_sublist 10 _)).imp (fun h => h)
    · intro p hp
      exact hperm.mem_iff.mp ((List.take_sublist 10 _).subset hp)
    · intro p hp q hq hqnot
      have hq' : q ∈ List.insertionSort cntGe st.1 := hperm.mem_iff.mpr hq
      have hsplit := List.take_append_drop 10 (List.insertionSort cntGe st.1)
      have hqdrop : q ∈ List.drop 10 (List.insertionSort cntGe st.1) := by
        rcases List.mem_append.mp (by rw [hsplit]; exact hq') with h | h
        · exact absurd h hqnot
        · exact h
      have hcross := (List.pairwise_append.mp (by rw [hsplit]; exact hsorted)).2.2
      exact hcross p hp q hqdrop

theorem weekdayOfOrd_weekStart (o : Int) : weekdayOfOrd (weekStart o) = 0 := by
  simp only [weekdayOfOrd, weekStart]
  omega

theorem weekStart_le (o : Int) : weekStart o ≤ o := by
  simp only [weekStart, weekdayOfOrd]
  omega

theorem lt_weekStart_add_seven (o : Int) : o < weekStart o + 7 := by
  simp only [weekStart, weekdayOfOrd]
  omega

/-- The invariant of the daily-trend counter: distinct date keys and
positive counts. -/
def DailyInv (acc : List (Date × Nat)) : Prop :=
  (acc.map Prod.fst).Nodup ∧ ∀ p ∈ acc, 1 ≤ p.2

theorem trend_daily_inv (responses : List Response) (option_text : String)
    (question_id : Option String) (options_map : OptionsMap) :
    DailyInv (responses.foldl (fun acc r =>
      match r.date with
      | none => acc
      | some d =>
          r.answers.foldl (fun acc a =>
            if trendAnswerOk option_text question_id options_map a then
              bump acc d
            else acc) acc) []) := by
  refine foldl_inv DailyInv _ responses [] ⟨by simp, by simp⟩ ?_
  intro acc r hP
  cases hdd : r.date with
  | none => simpa only [hdd] using hP
  | some d =>
      simp only [hdd]
      refine foldl_inv DailyInv _ r.answers acc hP ?_
      intro acc' a hP'
      by_cases hok : trendAnswerOk option_text question_id options_map a
      · rw [if_pos hok]
        exact ⟨bump_keys_nodup hP'.1 d, bump_pos hP'.2 d⟩
      · rw [if_neg hok]
        exact hP'

theorem weekly_keys_nodup (l : List DailyPoint) :
    ((l.foldl (fun acc p => weekBump acc (weekOf p) p.count) []).map
      Prod.fst).Nodup := by
  refine foldl_inv (fun acc : List (Int × Nat × Nat) =>
    (acc.map Prod.fst).Nodup) _ l [] ?_ ?_
  · simp
  · intro acc p h
    exact weekBump_keys_nodup h _ _

theorem length_le_sum_of_one_le {l : List Nat} (h : ∀ x ∈ l, 1 ≤ x) :
    l.length ≤ l.sum := by
  induction l with
  | nil => exact le_refl 0
  | cons x l ih =>
      simp only [List.length_cons, List.sum_cons]
      have hx := h x (List.mem_cons_self x l)
      have := ih (fun y hy => h y (List.mem_cons_of_mem x hy))
      omega

/-- Characterization of a successful trend computation: positive daily
counts at distinct dates, and every weekly entry aggregating exactly the
daily points of its week. -/
theorem trend_char (responses : List Response) (option_text : String)
    (question_id : Option String) (options_map : OptionsMap) (t : TrendResult)
    (h : calculate_option_trends responses option_text question_id
      options_map = some t) :
    (∀ p ∈ t.daily, 1 ≤ p.count) ∧
    (t.daily.map DailyPoint.date).Nodup ∧
    (∀ wp ∈ t.weekly,
      weekDayCount t.daily wp.date ≠ 0 ∧
      wp.count = weekTotal t.daily wp.date ∧
      wp.avg_per_day = (wp.count : ℚ) / (weekDayCount t.daily wp.date : ℚ)) ∧
    (∀ p ∈ t.daily, ∃ wp ∈ t.weekly, wp.date = weekOf p) := by
  by_cases hemp : responses.isEmpty
  · unfold calculate_option_trends at h
    rw [if_pos hemp] at h
    simp only [Option.some.injEq] at h
    subst h
    exact ⟨by simp, by simp, by simp, by simp⟩
  · have hdinv := trend_daily_inv responses option_text question_id
      options_map
    unfold calculate_option_trends at h
    rw [if_neg hemp] at h
    dsimp only at h
    revert hdinv h
    generalize (responses.foldl (fun acc r =>
      match r.date with
      | none => acc
      | some d =>
          r.answers.foldl (fun acc a =>
            if trendAnswerOk option_text question_id options_map a then
              bump acc d
            else acc) acc) ([] : List (Date × Nat))) = dd
    intro h hdinv
    split at h
    case neg.isFalse => exact absurd h (by simp)
    case neg.isTrue =>
    simp only [Option.some.injEq] at h
    subst h
    dsimp only
    have hWnodup := weekly_keys_nodup
      ((List.insertionSort dateKeyLe dd).map (fun p => (⟨p.1, p.2⟩ : DailyPoint)))
    have hdperm := List.perm_insertionSort dateKeyLe dd
    have hdaily_pos : ∀ p ∈ (List.insertionSort dateKeyLe dd).map
        (fun p => (⟨p.1, p.2⟩ : DailyPoint)), 1 ≤ p.count := by
      intro p hp
      rcases List.mem_map.mp hp with ⟨q, hq, rfl⟩
      exact hdinv.2 q (hdperm.mem_iff.mp hq)
    have hdates_nodup : (((List.insertionSort dateKeyLe dd).map
        (fun p => (⟨p.1, p.2⟩ : DailyPoint))).map DailyPoint.date).Nodup := by
      rw [List.map_map]
      exact ((hdperm.map Prod.fst).nodup_iff).mpr hdinv.1
    refine ⟨hdaily_pos, hdates_nodup, ?_, ?_⟩
    · intro wp hwp
      rcases List.mem_map.mp hwp with ⟨e, he, rfl⟩
      have heW : e ∈ (((List.insertionSort dateKeyLe dd).map
          (fun p => (⟨p.1, p.2⟩ : DailyPoint))).foldl
          (fun acc p => weekBump acc (weekOf p) p.count) []) :=
        (List.perm_insertionSort weekKeyLe _).mem_iff.mp he
      have hlook := alGet_eq_some_of_mem hWnodup heW
      rw [weekFold_lookup] at hlook
      by_cases hD : weekDayCount ((List.insertionSort dateKeyLe dd).map
          (fun p => (⟨p.1, p.2⟩ : DailyPoint))) e.1 = 0
      · rw [if_pos hD] at hlook
        simp [alGet] at hlook
      · rw [if_neg hD] at hlook
        simp only [alGet, List.find?_nil, Option.map_none', Option.elim_none,
          Option.some.injEq] at hlook
        refine ⟨hD, ?_, ?_⟩
        · dsimp only
          rw [← hlook]
        · dsimp only
          rw [← hlook]
          dsimp only
          rw [if_pos (Nat.pos_of_ne_zero hD)]
    · intro p hp
      have hDpos : weekDayCount ((List.insertionSort dateKeyLe dd).map
          (fun q => (⟨q.1, q.2⟩ : DailyPoint))) (weekOf p) ≠ 0 := by
        unfold weekDayCount
        intro hzero
        rw [List.length_eq_zero] at hzero
        have hpfilter : p ∈ List.filter (fun q => weekOf q = weekOf p)
            ((List.insertionSort dateKeyLe dd).map
              (fun q => (⟨q.1, q.2⟩ : DailyPoint))) :=
          List.mem_filter.mpr ⟨hp, by simp⟩
        rw [hzero] at hpfilter
        cases hpfilter
      have hlook := weekFold_lookup ((List.insertionSort dateKeyLe dd).map
        (fun q => (⟨q.1, q.2⟩ : DailyPoint))) [] (weekOf p)
      rw [if_neg hDpos] at hlook
      simp only [alGet, List.find?_nil, Option.map_none', Option.elim_none] at hlook
      have hmem := mem_of_alGet_eq_some hlook
      refine ⟨⟨weekOf p,
        weekTotal ((List.insertionSort dateKeyLe dd).map
          (fun q => (⟨q.1, q.2⟩ : DailyPoint))) (weekOf p),
        if 0 < weekDayCount ((List.insertionSort dateKeyLe dd).map
            (fun q => (⟨q.1, q.2⟩ : DailyPoint))) (weekOf p) then
          (weekTotal ((List.insertionSort dateKeyLe dd).map
            (fun q => (⟨q.1, q.2⟩ : DailyPoint))) (weekOf p) : ℚ) /
            (weekDayCount ((List.insertionSort dateKeyLe dd).map
              (fun q => (⟨q.1, q.2⟩ : DailyPoint))) (weekOf p) : ℚ)
        else 0⟩, ?_, rfl⟩
      refine List.mem_map.mpr ⟨(weekOf p,
        weekTotal ((List.insertionSort dateKeyLe dd).map
          (fun q => (⟨q.1, q.2⟩ : DailyPoint))) (weekOf p),
        weekDayCount ((List.insertionSort dateKeyLe dd).map
          (fun q => (⟨q.1, q.2⟩ : DailyPoint))) (weekOf p)), ?_, rfl⟩
      exact (List.perm_insertionSort weekKeyLe _).mem_iff.mpr hmem

/-- C7: every weekly rollup entry of `calculate_option_trends` sits on a
Monday-anchored week boundary containing the dates of its daily points,
its count is the total daily count of the week, and `avg_per_day` is that total
divided by the number of distinct days present in the week; concretely,
counts 4 and 2 on two distinct days of one week average to 3.0. -/
theorem c7_weekly_rollup :
    (∀ (responses : List Response) (option_text : String)
        (qid : Option String) (om : OptionsMap) (t : TrendResult),
      calculate_option_trends responses option_text qid om = some t →
      (∀ wp ∈ t.weekly,
        weekdayOfOrd wp.date = 0 ∧
        wp.count = weekTotal t.daily wp.date ∧
        0 < weekDayCount t.daily wp.date ∧
        wp.avg_per_day =
          (wp.count : ℚ) / (weekDayCount t.daily wp.date : ℚ)) ∧
      (∀ p ∈ t.daily,
        weekStart p.date.toOrd ≤ p.date.toOrd ∧
        p.date.toOrd < weekStart p.date.toOrd + 7 ∧
        ∃ wp ∈ t.weekly, wp.date = weekOf p)) ∧
    calculate_option_trends
      [⟨some ⟨2024, 9, 10⟩, [⟨some "q", none, some "oa"⟩,
        ⟨some "q", none, some "oa"⟩, ⟨some "q", none, some "oa"⟩,
        ⟨some "q", none, some "oa"⟩]⟩,
       ⟨some ⟨2024, 9, 11⟩, [⟨some "q", none, some "oa"⟩,
        ⟨some "q", none, some "oa"⟩]⟩]
      "A" none [("oa", [("option_text", "A")])] =
      some ⟨[⟨⟨2024, 9, 10⟩, 4⟩, ⟨⟨2024, 9, 11⟩, 2⟩],
        [⟨weekStart (Date.toOrd ⟨2024, 9, 10⟩), 6, 3⟩]⟩ := by
  constructor
  · intro responses option_text qid om t h
    have hc := trend_char responses option_text qid om t h
    constructor
    · intro wp hwp
      rcases hc.2.2.1 wp hwp with ⟨hD, hcount, havg⟩
      have hex : ∃ p ∈ t.daily, weekOf p = wp.date := by
        have hpos : 0 < (t.daily.filter
            (fun p => weekOf p = wp.date)).length := Nat.pos_of_ne_zero hD
        rcases List.exists_mem_of_length_pos hpos with ⟨p, hp⟩
        rcases List.mem_filter.mp hp with ⟨hp1, hp2⟩
        exact ⟨p, hp1, by simpa using hp2⟩
      rcases hex with ⟨p, _, hpw⟩
      refine ⟨?_, hcount, Nat.pos_of_ne_zero hD, havg⟩
      rw [← hpw]
      exact weekdayOfOrd_weekStart p.date.toOrd
    · intro p hp
      exact ⟨weekStart_le p.date.toOrd, lt_weekStart_add_seven p.date.toOrd,
        hc.2.2.2 p hp⟩
  · simp [calculate_option_trends, bump, weekBump, trendAnswerOk, truthy,
      pyStr, get_option_text_from_id, alGet, Date.valid, daysInMonth,
      Date.key, weekOf, weekStart, weekdayOfOrd, Date.toOrd, dateKeyLe,
      weekKeyLe, List.find?]
    norm_num

/-- Witness for C7: on the two-day week with counts 4 and 2 the single
weekly entry is Monday-anchored and averages 6 / 2 = 3. -/
theorem c7_witness :
    ∃ t : TrendResult,
      calculate_option_trends
        [⟨some ⟨2024, 9, 10⟩, [⟨some "q", none, some "oa"⟩,
          ⟨some "q", none, some "oa"⟩, ⟨some "q", none, some "oa"⟩,
          ⟨some "q", none, some "oa"⟩]⟩,
         ⟨some ⟨2024, 9, 11⟩, [⟨some "q", none, some "oa"⟩,
          ⟨some "q", none, some "oa"⟩]⟩]
        "A" none [("oa", [("option_text", "A")])] = some t ∧
      ∀ wp ∈ t.weekly,
        weekdayOfOrd wp.date = 0 ∧
        wp.count = weekTotal t.daily wp.date ∧
        0 < weekDayCount t.daily wp.date ∧
        wp.avg_per_day = (wp.count : ℚ) / (weekDayCount t.daily wp.date : ℚ) := by
  have heval : calculate_option_trends
      [⟨some ⟨2024, 9, 10⟩, [⟨some "q", none, some "oa"⟩,
        ⟨some "q", none, some "oa"⟩, ⟨some "q", none, some "oa"⟩,
        ⟨some "q", none, some "oa"⟩]⟩,
       ⟨some ⟨2024, 9, 11⟩, [⟨some "q", none, some "oa"⟩,
        ⟨some "q", none, some "oa"⟩]⟩]
      "A" none [("oa", [("option_text", "A")])] =
      some ⟨[⟨⟨2024, 9, 10⟩, 4⟩, ⟨⟨2024, 9, 11⟩, 2⟩],
        [⟨weekStart (Date.toOrd ⟨2024, 9, 10⟩), 6, 3⟩]⟩ := by
    simp [calculate_option_trends, bump, weekBump, trendAnswerOk, truthy,
      pyStr, get_option_text_from_id, alGet, Date.valid, daysInMonth,
      Date.key, weekOf, weekStart, weekdayOfOrd, Date.toOrd, dateKeyLe,
      weekKeyLe, List.find?]
    norm_num
  exact ⟨_, heval, (c7_weekly_rollup.1 _ _ _ _ _ heval).1⟩

/-- C10: every daily point of `calculate_option_trends` carries a count of
at least 1, and every weekly entry has count ≥ 1 and `avg_per_day` ≥ 1 —
days and weeks without matching selections are omitted, never reported
with zero values. -/
theorem c10_trend_entry_invariant (responses : List Response)
    (option_text : String) (qid : Option String) (om : OptionsMap)
    (t : TrendResult)
    (h : calculate_option_trends responses option_text qid om = some t) :
    (∀ p ∈ t.daily, 1 ≤ p.count) ∧
    (∀ wp ∈ t.weekly, 1 ≤ wp.count ∧ 1 ≤ wp.avg_per_day) := by
  have hc := trend_char responses option_text qid om t h
  refine ⟨hc.1, ?_⟩
  intro wp hwp
  rcases hc.2.2.1 wp hwp with ⟨hD, hcount, havg⟩
  have hTD : weekDayCount t.daily wp.date ≤ weekTotal t.daily wp.date := by
    unfold weekTotal weekDayCount
    have hlen : (t.daily.filter (fun p => weekOf p = wp.date)).length =
        ((t.daily.filter (fun p => weekOf p = wp.date)).map (·.count)).length :=
      (List.length_map _ _).symm
    rw [hlen]
    refine length_le_sum_of_one_le ?_
    intro x hx
    rcases List.mem_map.mp hx with ⟨q, hq, rfl⟩
    exact hc.1 q (List.mem_of_mem_filter hq)
  have hD1 : 1 ≤ weekDayCount t.daily wp.date := Nat.pos_of_ne_zero hD
  constructor
  · omega
  · rw [havg]
    rw [one_le_div (by exact_mod_cast hD1 : (0 : ℚ) <
      (weekDayCount t.daily wp.date : ℚ))]
    have hDT : weekDayCount t.daily wp.date ≤ wp.count := by
      rw [hcount]
      exact hTD
    exact_mod_cast hDT

/-- Witness for C10: a single matching selection yields a daily count of 1
and a weekly entry with count 1 and average 1. -/
theorem c10_witness :
    ∃ t : TrendResult,
      calculate_option_trends
        [⟨some ⟨2024, 9, 10⟩, [⟨some "q", none, some "oa"⟩]⟩]
        "A" none [("oa", [("option_text", "A")])] = some t ∧
      (∀ p ∈ t.daily, 1 ≤ p.count) ∧
      (∀ wp ∈ t.weekly, 1 ≤ wp.count ∧ 1 ≤ wp.avg_per_day) := by
  have heval : calculate_option_trends
      [⟨some ⟨2024, 9, 10⟩, [⟨some "q", none, some "oa"⟩]⟩]
      "A" none [("oa", [("option_text", "A")])] =
      some ⟨[⟨⟨2024, 9, 10⟩, 1⟩],
        [⟨weekStart (Date.toOrd ⟨2024, 9, 10⟩), 1, 1⟩]⟩ := by
    simp [calculate_option_trends, bump, weekBump, trendAnswerOk, truthy,
      pyStr, get_option_text_from_id, alGet, Date.valid, daysInMonth,
      Date.key, weekOf, weekStart, weekdayOfOrd, Date.toOrd, dateKeyLe,
      weekKeyLe, List.find?]
  exact ⟨_, heval, c10_trend_entry_invariant _ _ _ _ _ heval⟩

theorem filterMap_length_of_all_some {α β : Type} (f : α → Option β)
    (l : List α) (h : ∀ a ∈ l, (f a).isSome) :
    (l.filterMap f).length = l.length := by
  induction l with
  | nil => rfl
  | cons a l ih =>
      have ha := h a (List.mem_cons_self a l)
      rcases Option.isSome_iff_exists.mp ha with ⟨b, hb⟩
      rw [List.filterMap_cons, hb, List.length_cons,
        ih (fun x hx => h x (List.mem_cons_of_mem a hx))]
      rfl

theorem weeklyWindow_dates_some (responses : List Response) (now : ℚ) :
    ∀ r ∈ weeklyWindow responses now, (r.date).isSome := by
  intro r hr
  rcases List.mem_filter.mp hr with ⟨_, hpred⟩
  cases hd : r.date with
  | none => rw [hd] at hpred; cases hpred
  | some d => rfl

/-- Counterexample to C9 as stated: two duplicate responses for the same
in-window date make `days_completed` report 2, while the number of
distinct submission dates in the window is 1. -/
theorem c9_counterexample :
    calculate_weekly_summary
      [⟨some ⟨2024, 9, 10⟩, []⟩, ⟨some ⟨2024, 9, 10⟩, []⟩] "q1" []
      ((Date.toOrd ⟨2024, 9, 10⟩ : ℤ) : ℚ) =
      some ⟨2, [], "neutral", 50⟩ ∧
    ((([⟨some ⟨2024, 9, 10⟩, []⟩, ⟨some ⟨2024, 9, 10⟩, []⟩] :
      List Response).filterMap Response.date).dedup).length = 1 ∧
    (2 : Nat) ≠ 1 := by
  refine ⟨?_, by decide, by decide⟩
  simp [calculate_weekly_summary, weeklyWindow, inTrailingWeek,
    calculate_mood_score, mostCommon, Date.valid, daysInMonth, Date.toOrd,
    trendOf, bump, truthy, pyStr, List.mapM.loop]
  norm_num

/-- C9 amended: `calculate_weekly_summary` restricts to responses whose
parsed date lies in the trailing 7 days (inclusive) and reports
`days_completed` as the number of responses in that window — each
duplicate response for the same date is counted separately; only when the
windowed dates are pairwise distinct does it equal the number of distinct
submission dates. -/
theorem c9_amended (responses : List Response) (question_id : String)
    (options_map : OptionsMap) (now : ℚ) (s : WeeklySummary)
    (h : calculate_weekly_summary responses question_id options_map now =
      some s) :
    s.days_completed = (weeklyWindow responses now).length ∧
    ((weeklyWindow responses now).filterMap Response.date).length =
      (weeklyWindow responses now).length ∧
    (∀ r ∈ weeklyWindow responses now, ∀ d : Date, r.date = some d →
      inTrailingWeek now d) ∧
    (((weeklyWindow responses now).filterMap Response.date).Nodup →
      s.days_completed =
        ((weeklyWindow responses now).filterMap Response.date).dedup.length) := by
  have hlen : ((weeklyWindow responses now).filterMap Response.date).length =
      (weeklyWindow responses now).length :=
    filterMap_length_of_all_some _ _ (weeklyWindow_dates_some responses now)
  have hwin : ∀ r ∈ weeklyWindow responses now, ∀ d : Date,
      r.date = some d → inTrailingWeek now d := by
    intro r hr d hd
    rcases List.mem_filter.mp hr with ⟨_, hpred⟩
    rw [hd] at hpred
    exact hpred
  have hdays : s.days_completed = (weeklyWindow responses now).length := by
    unfold calculate_weekly_summary at h
    cases hmap : responses.mapM Response.date with
    | none =>
        rw [hmap] at h
        exact Option.noConfusion h
    | some ds =>
        rw [hmap] at h
        dsimp only at h
        by_cases hvalid : ds.all Date.valid
        · rw [if_pos hvalid] at h
          by_cases hemp : (weeklyWindow responses now).isEmpty
          · rw [if_pos hemp] at h
            simp only [Option.some.injEq] at h
            subst h
            rw [List.isEmpty_iff.mp hemp]
            rfl
          · rw [if_neg hemp] at h
            simp only [Option.some.injEq] at h
            subst h
            rfl
        · rw [if_neg hvalid] at h
          exact Option.noConfusion h
  refine ⟨hdays, hlen, hwin, fun hnd => ?_⟩
  rw [List.dedup_eq_self.mpr hnd, hlen, hdays]

/-- Witness for C9: on the duplicate-date collection the amended statement
reports 2 (the number of windowed responses). -/
theorem c9_witness :
    (⟨2, [], "neutral", 50⟩ : WeeklySummary).days_completed =
      (weeklyWindow [⟨some ⟨2024, 9, 10⟩, []⟩, ⟨some ⟨2024, 9, 10⟩, []⟩]
        ((Date.toOrd ⟨2024, 9, 10⟩ : ℤ) : ℚ)).length :=
  (c9_amended [⟨some ⟨2024, 9, 10⟩, []⟩, ⟨some ⟨2024, 9, 10⟩, []⟩] "q1" []
    ((Date.toOrd ⟨2024, 9, 10⟩ : ℤ) : ℚ) ⟨2, [], "neutral", 50⟩
    (by
      simp [calculate_weekly_summary, weeklyWindow, inTrailingWeek,
        calculate_mood_score, mostCommon, Date.valid, daysInMonth,
        Date.toOrd, trendOf, bump, truthy, pyStr, List.mapM.loop]
      norm_num)).1

/-- C6: in `calculate_option_frequency` the percentage of every counted option
is its count over `total_selections` times 100; `top_options` holds at most
10 entries, sorted by descending count, all drawn from the counts, each
dominating every excluded entry; on counts {A:5, B:3, C:1} option A comes
first with percentage 500/9, and a tie ({A:2, B:2}, A discovered first) is
broken by insertion order. -/
theorem c6_frequency_table :
    (∀ (responses : List Response) (qid sqid : Option String)
        (om : OptionsMap) (o : String) (c : Nat),
      (o, c) ∈ (calculate_option_frequency responses qid sqid
        om).absolute_counts →
      0 < (calculate_option_frequency responses qid sqid
        om).total_selections ∧
      alGet (calculate_option_frequency responses qid sqid om).percentages o =
        some ((c : ℚ) / (calculate_option_frequency responses qid sqid
          om).total_selections * 100)) ∧
    (∀ (responses : List Response) (qid sqid : Option String)
        (om : OptionsMap),
      (calculate_option_frequency responses qid sqid om).top_options.length
          ≤ 10 ∧
      (calculate_option_frequency responses qid sqid om).top_options.Pairwise
        (fun a b => b.2 ≤ a.2) ∧
      (∀ p ∈ (calculate_option_frequency responses qid sqid om).top_options,
        p ∈ (calculate_option_frequency responses qid sqid
          om).absolute_counts) ∧
      (∀ p ∈ (calculate_option_frequency responses qid sqid om).top_options,
        ∀ q ∈ (calculate_option_frequency responses qid sqid
          om).absolute_counts,
        q ∉ (calculate_option_frequency responses qid sqid om).top_options →
        q.2 ≤ p.2)) ∧
    ((calculate_option_frequency
        [⟨none, [⟨some "q", none, some "oa"⟩, ⟨some "q", none, some "oa"⟩,
          ⟨some "q", none, some "oa"⟩, ⟨some "q", none, some "oa"⟩,
          ⟨some "q", none, some "oa"⟩, ⟨some "q", none, some "ob"⟩,
          ⟨some "q", none, some "ob"⟩, ⟨some "q", none, some "ob"⟩,
          ⟨some "q", none, some "oc"⟩]⟩]
        none none
        [("oa", [("option_text", "A")]), ("ob", [("option_text", "B")]),
          ("oc", [("option_text", "C")])]).top_options =
      [("A", 5), ("B", 3), ("C", 1)] ∧
     alGet (calculate_option_frequency
        [⟨none, [⟨some "q", none, some "oa"⟩, ⟨some "q", none, some "oa"⟩,
          ⟨some "q", none, some "oa"⟩, ⟨some "q", none, some "oa"⟩,
          ⟨some "q", none, some "oa"⟩, ⟨some "q", none, some "ob"⟩,
          ⟨some "q", none, some "ob"⟩, ⟨some "q", none, some "ob"⟩,
          ⟨some "q", none, some "oc"⟩]⟩]
        none none
        [("oa", [("option_text", "A")]), ("ob", [("option_text", "B")]),
          ("oc", [("option_text", "C")])]).percentages "A" =
      some ((500 : ℚ) / 9)) ∧
    (calculate_option_frequency
        [⟨none, [⟨some "q", none, some "oa"⟩, ⟨some "q", none, some "ob"⟩,
          ⟨some "q", none, some "oa"⟩, ⟨some "q", none, some "ob"⟩]⟩]
        none none
        [("oa", [("option_text", "A")]), ("ob", [("option_text", "B")])]
      ).top_options = [("A", 2), ("B", 2)] := by
  refine ⟨fun responses qid sqid om o c hmem =>
      freq_pct responses qid sqid om hmem,
    fun responses qid sqid om => freq_top responses qid sqid om,
    ⟨by decide, ?_⟩, by decide⟩
  simp [calculate_option_frequency, bump, freqAnswerOk, truthy, pyStr,
    get_option_text_from_id, alGet, List.find?]
  norm_num

/-- Witness for C6: one counted selection has a positive total and the
expected percentage entry. -/
theorem c6_witness :
    0 < (calculate_option_frequency [⟨none, [⟨some "q", none, some "oa"⟩]⟩]
      none none [("oa", [("option_text", "A")])]).total_selections ∧
    alGet (calculate_option_frequency [⟨none, [⟨some "q", none, some "oa"⟩]⟩]
      none none [("oa", [("option_text", "A")])]).percentages "A" =
      some ((1 : ℚ) / (calculate_option_frequency
        [⟨none, [⟨some "q", none, some "oa"⟩]⟩] none none
        [("oa", [("option_text", "A")])]).total_selections * 100) :=
  c6_frequency_table.1 [⟨none, [⟨some "q", none, some "oa"⟩]⟩] none none
    [("oa", [("option_text", "A")])] "A" 1 (by decide)

/-- Counterexample to C3 as stated: a single "Contented" mood answer has
one positive and zero negative signals, so the claimed formula
`round(100 * pos / (pos + neg))` yields 100, but `calculate_mood_score`
reports 75 (the lexicon average), not 100. -/
theorem c3_counterexample :
    calculate_mood_score [⟨none, [⟨some "q1", none, some "o1"⟩]⟩] "q1"
      [("o1", [("option_text", "Contented")])] =
      ⟨75, "very_positive", 1, 0, [("Contented", 1)]⟩ ∧
    claimedMoodFormula 1 0 = 100 ∧ (75 : Nat) ≠ 100 := by
  refine ⟨by decide, ?_, by decide⟩
  norm_num [claimedMoodFormula, roundHalfEven]
  decide

/-- C3 amended: the overall mood score is the integer-truncated mean of
the per-label lexicon scores (Excited 100, Happy 90, Contented 75, Normal
50, Low energy 30, Depressed 10, Agitated/Stressed 20, default 50) of the
counted mood answers, and 50 when no mood answer is found;
positive/negative counts tally the positive/negative labels. -/
theorem c3_amended (responses : List Response) (question_id : String)
    (options_map : OptionsMap) :
    (calculate_mood_score responses question_id options_map).overall_score =
      (if (moodTexts responses question_id options_map).isEmpty then 50
       else ((moodTexts responses question_id options_map).map
          feelingScore).sum /
        (moodTexts responses question_id options_map).length) ∧
    (calculate_mood_score responses question_id options_map).positive_count =
      (moodTexts responses question_id options_map).countP
        (fun t => decide (t ∈ positiveOptions)) ∧
    (calculate_mood_score responses question_id options_map).negative_count =
      (moodTexts responses question_id options_map).countP
        (fun t => decide (t ∈ negativeOptions)) := by
  by_cases hemp : responses.isEmpty
  · rw [List.isEmpty_iff] at hemp
    subst hemp
    exact ⟨rfl, rfl, rfl⟩
  · have hmood : calculate_mood_score responses question_id options_map =
        ⟨if (moodTexts responses question_id options_map).length = 0 then 50
         else ((moodTexts responses question_id options_map).map
            feelingScore).sum /
          (moodTexts responses question_id options_map).length,
         trendOf (if (moodTexts responses question_id options_map).length = 0
          then 50
          else ((moodTexts responses question_id options_map).map
             feelingScore).sum /
           (moodTexts responses question_id options_map).length),
         (moodTexts responses question_id options_map).countP
           (fun t => decide (t ∈ positiveOptions)),
         (moodTexts responses question_id options_map).countP
           (fun t => decide (t ∈ negativeOptions)),
         (moodTexts responses question_id options_map).foldl bump []⟩ := by
      unfold calculate_mood_score
      rw [if_neg hemp, moodScan_eq, moodFold_char]
      simp only [Nat.zero_add]
    rw [hmood]
    refine ⟨?_, rfl, rfl⟩
    simp only [List.isEmpty_iff_length_eq_zero]

/-- Counterexample to C4 as stated: with a non-empty collection in which no
answer references any sleep question, `calculate_sleep_score` returns the
neutral-default composite 58.0 (quality 60, duration 60, consistency 50),
not the all-zero result. -/
theorem c4_counterexample :
    calculate_sleep_score [⟨none, [⟨some "other", none, some "o1"⟩]⟩]
      "q6" "q8" "q7" [] = ⟨58, 60, 60, 50⟩ ∧
    (⟨58, 60, 60, 50⟩ : SleepScore) ≠ (⟨0, 0, 0, 0⟩ : SleepScore) := by
  constructor
  · simp [calculate_sleep_score, sleepStep, truthy, pyStr,
      get_option_text_from_id, alGet, round1, roundHalfEven]
    norm_num
  · intro h
    rw [SleepScore.mk.injEq] at h
    norm_num at h

/-- C4 amended: all domain scorers tolerate a question id that no answer
references, without raising: nutrition ratio, exercise distribution and
hydration consistency return their all-zero/empty results, while
`calculate_sleep_score` on a non-empty collection returns the fixed
neutral-default composite {58.0, 60.0, 60.0, 50.0} (its all-zero result is
produced only for the empty collection). -/
theorem c4_amended :
    (∀ (responses : List Response) (qid : String) (om : OptionsMap),
      (∀ r ∈ responses, ∀ a ∈ r.answers, pyStr a.question_id ≠ qid) →
      calculate_nutrition_ratio responses qid om = ⟨0, 0, 0, 0, 0⟩) ∧
    (∀ (responses : List Response) (qid : String) (om : OptionsMap),
      (∀ r ∈ responses, ∀ a ∈ r.answers, pyStr a.question_id ≠ qid) →
      calculate_exercise_distribution responses qid om = ⟨[], [], 0⟩) ∧
    (∀ (responses : List Response) (qid : String) (days : Nat)
        (om : OptionsMap) (nowOrd : Int),
      (∀ r ∈ responses, ∀ a ∈ r.answers, pyStr a.question_id ≠ qid) →
      calculate_hydration_consistency responses qid days om nowOrd =
        ⟨0, 0, 0, 0, 0⟩) ∧
    (∀ (responses : List Response) (q6 q8 q7 : String) (om : OptionsMap),
      responses ≠ [] →
      (∀ r ∈ responses, ∀ a ∈ r.answers, pyStr a.question_id ≠ q6 ∧
        pyStr a.question_id ≠ q8 ∧ pyStr a.question_id ≠ q7) →
      calculate_sleep_score responses q6 q8 q7 om = ⟨58, 60, 60, 50⟩) ∧
    (∀ (q6 q8 q7 : String) (om : OptionsMap),
      calculate_sleep_score [] q6 q8 q7 om = ⟨0, 0, 0, 0⟩) := by
  refine ⟨?_, ?_, ?_, ?_, fun _ _ _ _ => rfl⟩
  · intro responses qid om href
    unfold calculate_nutrition_ratio
    by_cases hemp : responses.isEmpty
    · rw [if_pos hemp]
    · rw [if_neg hemp]
      have hfold : responses.foldl (fun st r =>
          r.answers.foldl (fun st a =>
            if pyStr a.question_id = qid ∧ truthy a.sub_question_id ∧
                truthy a.selected_option_id then
              let t := get_option_text_from_id (pyStr a.selected_option_id) om
              if strContains t "Healthy" || strContains t "Fruit & Veg" then
                (st.1 + 1, st.2)
              else if strContains t "Easy" || strContains t "Snacks" then
                (st.1, st.2 + 1)
              else st
            else st) st) ((0, 0) : Nat × Nat) = (0, 0) := by
        refine foldl_id_of_fix _ _ _ (fun st r hr => ?_)
        refine foldl_id_of_fix _ _ _ (fun st' a ha => ?_)
        rw [if_neg (fun hc => href r hr a ha hc.1)]
      rw [hfold]
      norm_num [round1, roundHalfEven]
  · intro responses qid om href
    unfold calculate_exercise_distribution
    by_cases hemp : responses.isEmpty
    · rw [if_pos hemp]
    · rw [if_neg hemp]
      have hfold : responses.foldl (fun acc r =>
          r.answers.foldl (fun acc a =>
            if pyStr a.question_id = qid ∧ truthy a.selected_option_id then
              bump acc (get_option_text_from_id (pyStr a.selected_option_id)
                om)
            else acc) acc) ([] : List (String × Nat)) = [] := by
        refine foldl_id_of_fix _ _ _ (fun acc r hr => ?_)
        refine foldl_id_of_fix _ _ _ (fun acc' a ha => ?_)
        rw [if_neg (fun hc => href r hr a ha hc.1)]
      rw [hfold]
      rfl
  · intro responses qid days om nowOrd href
    unfold calculate_hydration_consistency
    by_cases hemp : responses.isEmpty
    · rw [if_pos hemp]
    · rw [if_neg hemp]
      have hclass : ∀ r ∈ responses, hydrationClassify qid om r = none := by
        intro r hr
        unfold hydrationClassify
        rw [List.find?_eq_none.mpr]
        intro a ha
        simp only [Bool.and_eq_true, beq_iff_eq, not_and]
        intro hq
        exact absurd hq (href r hr a ha)
      have hfold : (List.range days).foldl (fun st i =>
          (responses.filter (fun r => r.date = some (dateOfOrd (nowOrd - i)))).foldl
            (fun st r =>
              match hydrationClassify qid om r with
              | some true => (st.1 + 1, st.2)
              | some false => (st.1, st.2 + 1)
              | none => st) st) ((0, 0) : Nat × Nat) = (0, 0) := by
        refine foldl_id_of_fix _ _ _ (fun st i _ => ?_)
        refine foldl_id_of_fix _ _ _ (fun st' r hr => ?_)
        rw [hclass r (List.mem_of_mem_filter hr)]
      rw [hfold]
      norm_num [round1, roundHalfEven]
  · intro responses q6 q8 q7 om hne href
    unfold calculate_sleep_score
    rw [if_neg (fun hc => hne (List.isEmpty_iff.mp hc))]
    have hfold : responses.foldl (fun st r =>
        r.answers.foldl (sleepStep q6 q8 q7 om) st)
        (⟨0, 0, 0, 0, []⟩ : SleepState) = ⟨0, 0, 0, 0, []⟩ := by
      refine foldl_id_of_fix _ _ _ (fun st r hr => ?_)
      refine foldl_id_of_fix _ _ _ (fun st' a ha => ?_)
      unfold sleepStep
      rcases href r hr a ha with ⟨h6, h8, h7⟩
      by_cases hopt : truthy a.selected_option_id
      · rw [if_pos hopt, if_neg h6, if_neg h8, if_neg h7]
      · rw [if_neg hopt]
    rw [hfold]
    norm_num [round1, roundHalfEven]

/-- Witness for C4 at concrete collections whose answers reference an
unrelated question id. -/
theorem c4_witness :
    calculate_nutrition_ratio [⟨none, [⟨some "qa", some "s", some "o"⟩]⟩]
      "qX" [] = ⟨0, 0, 0, 0, 0⟩ ∧
    calculate_sleep_score [⟨none, [⟨some "qa", none, some "o"⟩]⟩]
      "q6" "q8" "q7" [] = ⟨58, 60, 60, 50⟩ :=
  ⟨c4_amended.1 [⟨none, [⟨some "qa", some "s", some "o"⟩]⟩] "qX" []
      (by decide),
    c4_amended.2.2.2.1 [⟨none, [⟨some "qa", none, some "o"⟩]⟩]
      "q6" "q8" "q7" [] (by decide) (by decide)⟩

/-- Witness for C1 at a concrete collection with a gap: streaks 1 ≤ 2 ≤ 3. -/
theorem c1_witness :
    ∃ p : DailyProgress,
      calculate_daily_progress
        [⟨some ⟨2024, 9, 12⟩, []⟩, ⟨some ⟨2024, 9, 10⟩, []⟩,
         ⟨some ⟨2024, 9, 9⟩, []⟩] ⟨2024, 9, 12⟩ = some p ∧
      p.current_streak ≤ p.longest_streak ∧ p.longest_streak ≤ p.total_days := by
  refine ⟨⟨3, 1, 2, 3⟩, by decide, ?_⟩
  exact c1_streak_invariant
    [⟨some ⟨2024, 9, 12⟩, []⟩, ⟨some ⟨2024, 9, 10⟩, []⟩,
     ⟨some ⟨2024, 9, 9⟩, []⟩] ⟨2024, 9, 12⟩ ⟨3, 1, 2, 3⟩ (by decide)
